import Mathlib

/-!
Verification of the playbook identity-stabilization and match-analytics
pipeline.  The Python modules are shallowly embedded: per-frame state is
passed explicitly, dictionaries become association lists in insertion
order, fallible dictionary indexing becomes `Option`, floating point
becomes `ℚ` (all comparisons in the source are of nonnegative square
roots, so they are embedded as comparisons of squared distances, which
is equivalent by strict monotonicity of the square root on nonnegative
reals), Python `int()` becomes truncation toward zero, and external
libraries (sklearn k-means, OpenCV optical flow and corner detection,
the ByteTrack base tracker) become oracle function parameters.

The file is organized as definitions first, then theorems.
-/

namespace Playbook

/-- A color triple, embedded over `ℚ` (numpy float arrays in the source). -/
abbrev Color := ℚ × ℚ × ℚ

/-- A bounding box `(x1, y1, x2, y2)`. -/
structure Bbox where
  x1 : ℚ
  y1 : ℚ
  x2 : ℚ
  y2 : ℚ
deriving DecidableEq, Repr

/-- Python `int()` applied to a rational: truncation toward zero. -/
def truncToInt (q : ℚ) : ℤ :=
  if 0 ≤ q then ⌊q⌋ else ⌈q⌉

/-- `get_center_of_bbox` from `src/utils/bbox_utils.py`: the bbox center,
with both coordinates truncated by Python `int()`. -/
def getCenterOfBbox (b : Bbox) : ℤ × ℤ :=
  (truncToInt ((b.x1 + b.x2) / 2), truncToInt ((b.y1 + b.y2) / 2))

/-- Squared Euclidean distance between two planar points.  The source's
`measure_distance` is the square root of this; every comparison of
`measure_distance` values in the source compares nonnegative reals, so
comparing the squares is equivalent. -/
def measureDistSq (p q : ℚ × ℚ) : ℚ :=
  (p.1 - q.1) ^ 2 + (p.2 - q.2) ^ 2

/-! Association-list operations embedding Python dictionaries (insertion
order preserved; assignment to an existing key replaces in place,
assignment to a new key appends at the end; `del` removes the key). -/

/-- Python `d.get(k)` / `d[k]` lookup on an insertion-ordered dict. -/
def lookupA {β : Type} (k : ℕ) : List (ℕ × β) → Option β
  | [] => none
  | (k', v) :: rest => if k' = k then some v else lookupA k rest

/-- Python `d[k] = v` on an insertion-ordered dict. -/
def setA {β : Type} (k : ℕ) (v : β) : List (ℕ × β) → List (ℕ × β)
  | [] => [(k, v)]
  | (k', v') :: rest => if k' = k then (k, v) :: rest else (k', v') :: setA k v rest

/-- Python `del d[k]` on an insertion-ordered dict. -/
def delA {β : Type} (k : ℕ) : List (ℕ × β) → List (ℕ × β)
  | [] => []
  | (k', v') :: rest => if k' = k then rest else (k', v') :: delA k rest

namespace PlayerBallAssigner

/-- Squared distance from the ball reference point to the nearer of the
player's two bottom bbox corners, as computed in
`PlayerBallAssigner.assign_ball_to_player` (`distance_left`,
`distance_right`, `distance = min(...)`, squared). -/
def playerDistSq (pb : Bbox) (ball : ℤ × ℤ) : ℚ :=
  min (measureDistSq (pb.x1, pb.y2) ((ball.1 : ℚ), (ball.2 : ℚ)))
      (measureDistSq (pb.x2, pb.y2) ((ball.1 : ℚ), (ball.2 : ℚ)))

/-- The loop of `assign_ball_to_player`: fold over the player dict in
iteration order, carrying `(minimum_distance, assigned_player)`.  The
source compares square roots against `70` (`max_player_ball_distance`)
and against the running minimum (initially `99999`); the embedding
compares the squares. -/
def assignGo (ball : ℤ × ℤ) : List (ℕ × Bbox) → ℚ → Option ℕ → ℚ × Option ℕ
  | [], minSq, assigned => (minSq, assigned)
  | (pid, pb) :: rest, minSq, assigned =>
      let d := playerDistSq pb ball
      if d < 70 ^ 2 ∧ d < minSq then
        assignGo ball rest d (some pid)
      else
        assignGo ball rest minSq assigned

/-- `PlayerBallAssigner.assign_ball_to_player`: `none` embeds the `-1`
sentinel (no player assigned). -/
def assignBallToPlayer (players : List (ℕ × Bbox)) (ballBbox : Bbox) : Option ℕ :=
  (assignGo (getCenterOfBbox ballBbox) players ((99999 : ℚ) ^ 2) none).2

end PlayerBallAssigner

namespace AppStats

/-- One player row of a frame of `tracks['players']` as consumed by the
pass-tracking loop in `get_analysis_stats` (`app.py`): the track id, the
`team` field (defaulting to 1 in the source via `.get('team', 1)`), and
the `has_ball` flag. -/
structure FramePlayer where
  pid : ℕ
  team : ℕ
  hasBall : Bool
deriving DecidableEq, Repr

/-- The holder scan of the frame loop in `get_analysis_stats`: the last
player in dict iteration order with `has_ball` set becomes
`(current_ball_holder, current_holder_team)`. -/
def currentHolder (frame : List FramePlayer) : Option (ℕ × ℕ) :=
  frame.foldl (fun acc p => if p.hasBall then some (p.pid, p.team) else acc) none

/-- The pass-tracking state of `get_analysis_stats`:
`(last_player_with_ball, last_player_team)` (always set together, so
embedded as one option), the `passes` dict, and `player_passes`. -/
structure PassState where
  lastHolder : Option (ℕ × ℕ)
  total : ℕ
  team1 : ℕ
  team2 : ℕ
  playerPasses : List (ℕ × ℕ)
deriving DecidableEq, Repr

/-- Initial pass-tracking state (`last_player_with_ball = None`, zero
counters, empty `player_passes`). -/
def initPassState : PassState :=
  { lastHolder := none, total := 0, team1 := 0, team2 := 0, playerPasses := [] }

/-- The pass-recording conditional of `get_analysis_stats`: a pass is
recorded iff the current holder differs from the last holder and the
teams agree; the holder's team counter and the prior holder's personal
tally are bumped. -/
def recordPass (st : PassState) (cid cteam lid lteam : ℕ) : PassState :=
  if cid ≠ lid ∧ cteam = lteam then
    { st with
      total := st.total + 1
      team1 := if cteam = 1 then st.team1 + 1 else st.team1
      team2 := if cteam = 1 then st.team2 else st.team2 + 1
      playerPasses := setA lid ((lookupA lid st.playerPasses).getD 0 + 1) st.playerPasses }
  else st

/-- One frame of the pass-detection logic in `get_analysis_stats`: the
pass conditional fires only when both a current and a last holder exist;
then the last holder is updated if a current holder exists. -/
def passStep (st : PassState) (frame : List FramePlayer) : PassState :=
  let cur := currentHolder frame
  let st1 :=
    match cur, st.lastHolder with
    | some (cid, cteam), some (lid, lteam) => recordPass st cid cteam lid lteam
    | _, _ => st
  match cur with
  | some c => { st1 with lastHolder := some c }
  | none => st1

/-- The whole pass-tracking fold of `get_analysis_stats` over the frame
sequence. -/
def runPassTracking (frames : List (List FramePlayer)) : PassState :=
  frames.foldl passStep initPassState

end AppStats

namespace Camera

/-- The fields of a per-frame track record relevant to
`CameraMovementEstimator.add_adjust_positions_to_tracks`: the raw
`position` (absent when not yet computed) and the compensated
`position_adjusted` (absent until this function writes it). -/
structure TrackInfo where
  position : Option (ℚ × ℚ)
  positionAdjusted : Option (ℚ × ℚ)
deriving DecidableEq, Repr

/-- The body of the innermost loop of `add_adjust_positions_to_tracks`:
tracks without a raw position are skipped (`continue`); otherwise
`camera_movement_per_frame[frame_num]` is read (a Python `IndexError`,
embedded as `none`, if the frame index is out of range) and the
compensated position is the raw position minus the camera vector. -/
def adjustInfoAt (cms : List (ℚ × ℚ)) (i : ℕ) (info : TrackInfo) : Option TrackInfo :=
  match info.position with
  | none => some info
  | some p =>
      match cms.get? i with
      | none => none
      | some cm => some { info with positionAdjusted := some (p.1 - cm.1, p.2 - cm.2) }

/-- One frame's track dict processed by `add_adjust_positions_to_tracks`. -/
def adjustFrame (cms : List (ℚ × ℚ)) (i : ℕ) :
    List (ℕ × TrackInfo) → Option (List (ℕ × TrackInfo))
  | [] => some []
  | (tid, info) :: rest =>
      match adjustInfoAt cms i info, adjustFrame cms i rest with
      | some info2, some rest2 => some ((tid, info2) :: rest2)
      | _, _ => none

/-- One object type's frame list (`enumerate(object_tracks)`), carrying
the running frame index. -/
def adjustObject (cms : List (ℚ × ℚ)) : ℕ → List (List (ℕ × TrackInfo)) →
    Option (List (List (ℕ × TrackInfo)))
  | _, [] => some []
  | i, fr :: rest =>
      match adjustFrame cms i fr, adjustObject cms (i + 1) rest with
      | some fr2, some rest2 => some (fr2 :: rest2)
      | _, _ => none

/-- `CameraMovementEstimator.add_adjust_positions_to_tracks`: the outer
loop over `tracks.items()`. -/
def addAdjustPositionsToTracks (cms : List (ℚ × ℚ)) :
    List (String × List (List (ℕ × TrackInfo))) →
    Option (List (String × List (List (ℕ × TrackInfo))))
  | [] => some []
  | (ty, ot) :: rest =>
      match adjustObject cms 0 ot, addAdjustPositionsToTracks cms rest with
      | some ot2, some rest2 => some ((ty, ot2) :: rest2)
      | _, _ => none

/-- A sparse feature set (OpenCV corner features), as rational points. -/
abbrev Features := List (ℚ × ℚ)

/-- The inner loop of `get_camera_movement` over
`zip(new_features, old_features)`: track the maximum displacement and
the camera vector `measure_xy_distance(old, new) = old - new` of the pair
realizing it (strict comparison, so the first maximal pair wins).
Distances are compared squared. -/
def maxDispGo : List ((ℚ × ℚ) × (ℚ × ℚ)) → ℚ × (ℚ × ℚ) → ℚ × (ℚ × ℚ)
  | [], acc => acc
  | (nw, od) :: rest, (maxSq, v) =>
      let d := measureDistSq nw od
      if d > maxSq then maxDispGo rest (d, (od.1 - nw.1, od.2 - nw.2))
      else maxDispGo rest (maxSq, v)

/-- The per-frame maximum displacement scan, starting from
`max_distance = 0`, `camera_movement_x = camera_movement_y = 0`. -/
def maxDisp (pairs : List ((ℚ × ℚ) × (ℚ × ℚ))) : ℚ × (ℚ × ℚ) :=
  maxDispGo pairs (0, (0, 0))

/-- One iteration of the frame loop of
`CameraMovementEstimator.get_camera_movement`.  The external calls are
oracles: `flow i ofs` embeds `cv2.calcOpticalFlowPyrLK` on frame `i`
given the old feature set, `detect i` embeds
`cv2.goodFeaturesToTrack` on frame `i` (either may yield `none`, the
source's `None`).  If the maximum displacement exceeds the noise floor
`minimum_distance = 5`, the camera movement is the maximal pair's vector
and features are re-detected; otherwise the entry keeps its initial
`[0, 0]` and the old features are kept. -/
def camStep (detect : ℕ → Option Features) (flow : ℕ → Option Features → Option Features)
    (ofs : Option Features) (i : ℕ) : (ℚ × ℚ) × Option Features :=
  let nf := flow i ofs
  let md :=
    match nf, ofs with
    | some nfs, some olds => maxDisp (nfs.zip olds)
    | _, _ => ((0 : ℚ), ((0 : ℚ), (0 : ℚ)))
  if md.1 > 5 ^ 2 then (md.2, detect i)
  else ((0, 0), ofs)

/-- The frame loop of `get_camera_movement` over frames
`i, i+1, ..., i+k-1`, threading the feature set. -/
def camRun (detect : ℕ → Option Features) (flow : ℕ → Option Features → Option Features) :
    Option Features → ℕ → ℕ → List (ℚ × ℚ)
  | _, _, 0 => []
  | ofs, i, k + 1 =>
      let r := camStep detect flow ofs i
      r.1 :: camRun detect flow r.2 (i + 1) k

/-- `CameraMovementEstimator.get_camera_movement` for `n` frames: frame 0
keeps `[0, 0]`; frames `1..n-1` run the loop starting from the features
detected on frame 0.  An empty clip indexes `frames[0]` and raises, so
`n = 0` yields `none`. -/
def getCameraMovement (n : ℕ) (detect : ℕ → Option Features)
    (flow : ℕ → Option Features → Option Features) : Option (List (ℚ × ℚ)) :=
  if n = 0 then none
  else some ((0, 0) :: camRun detect flow (detect 0) 1 (n - 1))

end Camera

/-- `get_position_from_bbox` as in `smart_tracker.py`, `id_stabilizer.py`
and `persistent_id_manager.py`: the exact (float) bbox center,
without the `int()` truncation of `get_center_of_bbox`. -/
def getPositionFromBbox (bb : Bbox) : ℚ × ℚ :=
  ((bb.x1 + bb.x2) / 2, (bb.y1 + bb.y2) / 2)

/-- Keep the last `n` elements of a list (the source's
`if len(h) > k: h = h[-k:]` bounded-history truncation; for
`len ≤ k` dropping `length - n = 0` elements is the identity). -/
def takeLast {α : Type} (n : ℕ) (l : List α) : List α :=
  l.drop (l.length - n)

namespace TeamAssigner

/-- The neutral gray fallback color of `get_player_color`. -/
def grayColor : Color := (128, 128, 128)

/-- Whether the raw bbox fails `get_player_color`'s first validation
(`x2 <= x1 or y2 <= y1 or x1 < 0 or y1 < 0` after `map(int, bbox)`). -/
def bboxInvalid (bb : Bbox) : Prop :=
  truncToInt bb.x2 ≤ truncToInt bb.x1 ∨ truncToInt bb.y2 ≤ truncToInt bb.y1 ∨
    truncToInt bb.x1 < 0 ∨ truncToInt bb.y1 < 0

instance (bb : Bbox) : Decidable (bboxInvalid bb) := by
  unfold bboxInvalid
  infer_instance

/-- The width of the frame-clamped crop (`x2, x1` clamped to `[0, w]`;
numpy slices of reversed bounds are empty, hence the outer `max 0`). -/
def cropWidth (frameW : ℤ) (bb : Bbox) : ℤ :=
  max 0 (min frameW (truncToInt bb.x2) - max 0 (truncToInt bb.x1))

/-- The height of the top third of the frame-clamped crop
(`image[0:int(image.shape[0]/3), :]`; the shape is nonnegative so
Python `int()` is floor division). -/
def cropTopHeight (frameH : ℤ) (bb : Bbox) : ℤ :=
  max 0 (min frameH (truncToInt bb.y2) - max 0 (truncToInt bb.y1)) / 3

/-- `TeamAssigner.get_player_color`.  The frame is represented by its
dimensions plus a clustering oracle `cluster x1 y1 x2 y2` standing for
the whole k-means jersey-color extraction on the non-degenerate crop
(sklearn and the pixel data are external to the embedding).  Degenerate
inputs return the neutral gray before the oracle is consulted; the
`except` branch of the source also returns gray. -/
def getPlayerColor (frameH frameW : ℤ) (cluster : ℤ → ℤ → ℤ → ℤ → Color) (bb : Bbox) : Color :=
  if bboxInvalid bb then grayColor
  else
    if cropTopHeight frameH bb < 5 ∨ cropWidth frameW bb < 5 then grayColor
    else
      cluster (max 0 (truncToInt bb.x1)) (max 0 (truncToInt bb.y1))
        (min frameW (truncToInt bb.x2))
        (max 0 (truncToInt bb.y1) + cropTopHeight frameH bb)

/-- `TeamAssigner.convert_to_display_color`: boost each channel by 20%
(truncated), cap at 255, brighten if too dark, and flip to BGR. -/
def convertToDisplayColor (c : Color) : Color :=
  let r := min 255 (truncToInt (c.1 * (6 / 5)))
  let g := min 255 (truncToInt (c.2.1 * (6 / 5)))
  let b := min 255 (truncToInt (c.2.2 * (6 / 5)))
  if r + g + b < 150 then
    ((min 255 (b + 50) : ℤ), (min 255 (g + 50) : ℤ), (min 255 (r + 50) : ℤ))
  else ((b : ℤ), (g : ℤ), (r : ℤ))

/-- `TeamAssigner.assign_team_color`: extract a jersey color per player
detection, and with fewer than two players fall back to the fixed
default red/blue team colors without clustering; otherwise cluster into
two prototypes (the 2-means on the color list is the oracle `kmeans2`)
and order them by brightness (lighter cluster is team 1).  Returns the
pair `(team_colors[1], team_colors[2])`. -/
def assignTeamColor (frameH frameW : ℤ) (cluster : ℤ → ℤ → ℤ → ℤ → Color)
    (kmeans2 : List Color → Color × Color) (detections : List Bbox) : Color × Color :=
  let playerColors := detections.map (getPlayerColor frameH frameW cluster)
  if playerColors.length < 2 then ((255, 0, 0), (0, 0, 255))
  else
    let c0 := (kmeans2 playerColors).1
    let c1 := (kmeans2 playerColors).2
    let b0 := (c0.1 + c0.2.1 + c0.2.2) / 3
    let b1 := (c1.1 + c1.2.1 + c1.2.2) / 3
    if b0 > b1 then (convertToDisplayColor c0, convertToDisplayColor c1)
    else (convertToDisplayColor c1, convertToDisplayColor c0)

/-- The mutable state of a `TeamAssigner`: the `team_colors` dict, the
permanent `player_team_dict` lock table, and the fitted classifier
(`self.kmeans` plus the cluster-to-team mapping), abstracted as an
optional oracle from an opaque frame handle and a bbox to a team id
(`none` embeds `self.kmeans is None`). -/
structure TAState where
  teamColors : List (ℕ × Color)
  playerTeamDict : List (ℕ × ℕ)
  classifier : Option (ℕ → Bbox → ℕ)

/-- A fresh `TeamAssigner()`. -/
def initTAState : TAState :=
  { teamColors := [], playerTeamDict := [], classifier := none }

/-- `TeamAssigner.get_player_team`: a locked player id returns its locked
team unchanged; otherwise an unfitted classifier or a `None` frame
yields the default team 1 without locking; otherwise the classifier's
verdict is locked permanently. -/
def getPlayerTeam (st : TAState) (frame : Option ℕ) (bb : Bbox) (pid : ℕ) : ℕ × TAState :=
  match lookupA pid st.playerTeamDict with
  | some t => (t, st)
  | none =>
      match st.classifier with
      | none => (1, st)
      | some cls =>
          match frame with
          | none => (1, st)
          | some f =>
              let t := cls f bb
              (t, { st with playerTeamDict := setA pid t st.playerTeamDict })

/-- A sequence of `get_player_team` calls (frame handle, bbox, player
id), folded over the assigner state. -/
def runCalls (st : TAState) : List (Option ℕ × Bbox × ℕ) → TAState
  | [] => st
  | (fr, bb, pid) :: rest => runCalls (getPlayerTeam st fr bb pid).2 rest

end TeamAssigner

namespace SmartTracker

open TeamAssigner

/-- One entry of `SmartTracker.track_history`.  The source always sets
`team`, `team_color` and a nonempty `positions` at creation
(`update_track_history`, creation branch), so the `'team' not in
history` re-lock branch of the update path never fires and the fields
are embedded as total. -/
structure HistEntry where
  team : ℕ
  teamColor : Color
  positions : List (ℚ × ℚ)
  lastFrame : ℤ

/-- The mutable state of a `SmartTracker`: the track history and the
(default) team colors.  The constant constraints `max_velocity = 150`,
`team_lock_enabled = True` and `motion_constraint_enabled = True` are
never mutated and are inlined. -/
structure SmartState where
  history : List (ℕ × HistEntry)
  teamColors : List (ℕ × Color)

/-- A fresh `SmartTracker`: empty history, default white/green colors. -/
def initSmartState : SmartState :=
  { history := [], teamColors := [(1, (255, 255, 255)), (2, (0, 255, 0))] }

/-- `SmartTracker.validate_track_assignment`: a new track is allowed; an
existing track is blocked on a team switch (team lock) or on moving more
than `max_velocity = 150` pixels in one step (squared comparison). -/
def validateTrackAssignment (st : SmartState) (tid : ℕ) (bb : Bbox) (newTeam : ℕ) : Bool :=
  match lookupA tid st.history with
  | none => true
  | some h =>
      if h.team ≠ newTeam then false
      else
        match h.positions.getLast? with
        | none => true
        | some lastPos =>
            if measureDistSq lastPos (getPositionFromBbox bb) > 150 ^ 2 then false
            else true

/-- `SmartTracker.update_track_history`: create the entry with the given
team and the color table's color (gray fallback), or append the position
(bounded to the last 10) and refresh `last_frame`. -/
def updateTrackHistory (st : SmartState) (tid : ℕ) (bb : Bbox) (team : ℕ)
    (frameNum : ℤ) : SmartState :=
  let pos := getPositionFromBbox bb
  match lookupA tid st.history with
  | none =>
      let tc := (lookupA team st.teamColors).getD (128, 128, 128)
      let e : HistEntry := { team := team, teamColor := tc, positions := [pos], lastFrame := frameNum }
      { st with history := setA tid e st.history }
  | some h =>
      let e : HistEntry := { h with positions := takeLast 10 (h.positions ++ [pos]), lastFrame := frameNum }
      { st with history := setA tid e st.history }

/-- `SmartTracker.cleanup_old_tracks` with the default `max_age = 60`. -/
def cleanupOldTracks (st : SmartState) (frameNum : ℤ) : SmartState :=
  { st with history := st.history.filter (fun e => decide (frameNum - e.2.lastFrame ≤ 60)) }

/-- One output record of `process_frame_detections`. -/
structure SmartOut where
  bbox : Bbox
  team : ℕ
  teamColor : Color

/-- The body of the detection loop of
`SmartTracker.process_frame_detections` for one tracked detection
`(track_id, bbox)` (the ByteTrack base tracker is external, so its
output is the input here): classify via the shared `TeamAssigner`, then
validate; accepted tracks are emitted with the locked (historical) team
and color and the history is updated; rejected tracks are dropped. -/
def processDetection (ta : TAState) (st : SmartState) (frame : Option ℕ) (frameNum : ℤ)
    (acc : List (ℕ × SmartOut)) (tid : ℕ) (bb : Bbox) :
    TAState × SmartState × List (ℕ × SmartOut) :=
  let r := getPlayerTeam ta frame bb tid
  let team := r.1
  let ta2 := r.2
  if validateTrackAssignment st tid bb team then
    let locked :=
      match lookupA tid st.history with
      | some h => (h.team, h.teamColor)
      | none => (team, (lookupA team st.teamColors).getD (128, 128, 128))
    let st2 := updateTrackHistory st tid bb locked.1 frameNum
    (ta2, st2, setA tid { bbox := bb, team := locked.1, teamColor := locked.2 } acc)
  else (ta2, st, acc)

/-- The detection loop of `process_frame_detections`. -/
def processLoop (frame : Option ℕ) (frameNum : ℤ) :
    TAState × SmartState × List (ℕ × SmartOut) → List (ℕ × Bbox) →
    TAState × SmartState × List (ℕ × SmartOut)
  | acc, [] => acc
  | (ta, st, out), (tid, bb) :: rest =>
      processLoop frame frameNum (processDetection ta st frame frameNum out tid bb) rest

/-- `SmartTracker.process_frame_detections`: run the loop, then clean up
old tracks. -/
def processFrameDetections (ta : TAState) (st : SmartState) (dets : List (ℕ × Bbox))
    (frameNum : ℤ) (frame : Option ℕ) : TAState × SmartState × List (ℕ × SmartOut) :=
  let r := processLoop frame frameNum (ta, st, []) dets
  (r.1, cleanupOldTracks r.2.1 frameNum, r.2.2)

/-- An event of the `advanced_tracker.get_object_tracks` pipeline as it
drives the `SmartTracker`: either a frame of tracked player detections,
or the one-time team-color initialization
(`team_assigner.assign_team_color` fitting the classifier, followed by
`smart_tracker.set_team_colors`). -/
inductive PipeEvent where
  | frame (frameNum : ℤ) (frameHandle : Option ℕ) (dets : List (ℕ × Bbox))
  | initTeams (cls : ℕ → Bbox → ℕ) (c1 c2 : Color)

/-- Apply one pipeline event, accumulating the per-frame outputs. -/
def applyEvent (acc : TAState × SmartState × List (List (ℕ × SmartOut))) (ev : PipeEvent) :
    TAState × SmartState × List (List (ℕ × SmartOut)) :=
  match ev with
  | .frame n fh dets =>
      let r := processFrameDetections acc.1 acc.2.1 dets n fh
      (r.1, r.2.1, acc.2.2 ++ [r.2.2])
  | .initTeams cls c1 c2 =>
      let tc2 := setA 1 c1 (setA 2 c2 acc.1.teamColors)
      let ta2 := { acc.1 with classifier := some cls, teamColors := tc2 }
      let st2 := { acc.2.1 with teamColors := setA 1 c1 (setA 2 c2 acc.2.1.teamColors) }
      (ta2, st2, acc.2.2)

/-- A pipeline run from fresh `TeamAssigner` and `SmartTracker`. -/
def runPipeline (events : List PipeEvent) : TAState × SmartState × List (List (ℕ × SmartOut)) :=
  events.foldl applyEvent (initTAState, initSmartState, [])

end SmartTracker

namespace IDStabilizer

open TeamAssigner

/-- One entry of `IDStabilizer.stable_registry`:
`{'bytetrack_ids': [...], 'team': 1/2, 'team_color': (r,g,b)}`. -/
structure RegInfo where
  bytetrackIds : List ℕ
  team : ℕ
  teamColor : Color
deriving DecidableEq, Repr

/-- The mutable state of an `IDStabilizer`.  The constant thresholds
`max_distance_reconnect = 80` and `max_frames_missing = 10` are
inlined.  `position_history` is a `defaultdict(list)`, so a missing key
reads as `[]` where the source appends, but the `in` membership test of
`find_missing_player_by_position` does not create entries. -/
structure StabState where
  registry : List (ℕ × RegInfo)
  btToStable : List (ℕ × ℕ)
  posHistory : List (ℕ × List (ℤ × ℚ × ℚ))
  lastSeen : List (ℕ × ℤ)
  nextStableId : ℕ

/-- A fresh `IDStabilizer()`: empty registries, `next_stable_id = 1`. -/
def initStabState : StabState :=
  { registry := [], btToStable := [], posHistory := [], lastSeen := [], nextStableId := 1 }

/-- The registry scan of `find_missing_player_by_position`, carrying
`(best_match, best_distance)` (`none` is the initial infinite
`best_distance`).  A candidate needs a `last_seen` entry with
`0 < frame_num - last_seen <= 10`, a nonempty position history, and a
squared distance below `80²` beating the current best (strictly, so the
first of equal distances wins). -/
def findMissingGo (st : StabState) (pos : ℚ × ℚ) (frameNum : ℤ) :
    List (ℕ × RegInfo) → Option (ℕ × ℚ) → Option (ℕ × ℚ)
  | [], best => best
  | (sid, _) :: rest, best =>
      match lookupA sid st.lastSeen with
      | none => findMissingGo st pos frameNum rest best
      | some ls =>
          if frameNum - ls ≤ 10 ∧ frameNum - ls > 0 then
            match lookupA sid st.posHistory with
            | none => findMissingGo st pos frameNum rest best
            | some hist =>
                match hist.getLast? with
                | none => findMissingGo st pos frameNum rest best
                | some lastEntry =>
                    let d := measureDistSq pos (lastEntry.2.1, lastEntry.2.2)
                    match best with
                    | none =>
                        if d < 80 ^ 2 then findMissingGo st pos frameNum rest (some (sid, d))
                        else findMissingGo st pos frameNum rest best
                    | some b =>
                        if d < 80 ^ 2 ∧ d < b.2 then
                          findMissingGo st pos frameNum rest (some (sid, d))
                        else findMissingGo st pos frameNum rest best
          else findMissingGo st pos frameNum rest best

/-- `IDStabilizer.find_missing_player_by_position`. -/
def findMissingPlayerByPosition (st : StabState) (pos : ℚ × ℚ) (frameNum : ℤ) : Option ℕ :=
  (findMissingGo st pos frameNum st.registry none).map Prod.fst

/-- An output track of `stabilize_frame_tracks`: the track data enriched
with the registry's locked `team` and `team_color`. -/
structure StableTrack where
  bbox : Bbox
  team : ℕ
  teamColor : Color
deriving DecidableEq, Repr

/-- Lines 96-108 of `stabilize_frame_tracks`, common to all three paths:
refresh `last_seen`, append to the (20-bounded) position history, and
emit the output track with the registry's locked team and color
(`stable_registry[stable_id]` raises `KeyError`, embedded `none`, if the
id is not registered). -/
def finishTrack (st : StabState) (out : List (ℕ × StableTrack)) (frameNum : ℤ)
    (bb : Bbox) (sid : ℕ) : Option (StabState × List (ℕ × StableTrack)) :=
  let pos := getPositionFromBbox bb
  let st2 := { st with
    lastSeen := setA sid frameNum st.lastSeen
    posHistory := setA sid
      (takeLast 20 ((lookupA sid st.posHistory).getD [] ++ [(frameNum, pos.1, pos.2)]))
      st.posHistory }
  match lookupA sid st2.registry with
  | none => none
  | some info => some (st2, setA sid { bbox := bb, team := info.team, teamColor := info.teamColor } out)

/-- The team-lock mint of `stabilize_frame_tracks` (lines 72-86): the
team is `team_assigner.get_player_team(None, bbox, stable_id)` when an
assigner is attached, else 1, and the display color is white for team 1
and green otherwise. -/
def mintTeam (ta : Option TAState) (bb : Bbox) (sid : ℕ) : ℕ × Option TAState :=
  match ta with
  | none => (1, none)
  | some t =>
      let r := getPlayerTeam t none bb sid
      (r.1, some r.2)

/-- The state mutation of the reconnection branch of
`stabilize_frame_tracks` (lines 88-93): the alias is appended and the
ByteTrack id is mapped. -/
def reconnectState (st : StabState) (sid : ℕ) (info : RegInfo) (bt : ℕ) : StabState :=
  { st with
    registry := setA sid { info with bytetrackIds := info.bytetrackIds ++ [bt] } st.registry
    btToStable := setA bt sid st.btToStable }

/-- The state mutation of the mint branch of `stabilize_frame_tracks`
(lines 72-86, 93): a fresh stable id is taken from the counter, its team
locked (white for team 1, green otherwise), and the ByteTrack id
mapped.  Returns the new state and the (possibly updated) assigner. -/
def mintState (ta : Option TAState) (st : StabState) (bt : ℕ) (bb : Bbox) :
    StabState × Option TAState :=
  let sid := st.nextStableId
  let tr := mintTeam ta bb sid
  let tc : Color := if tr.1 = 1 then (255, 255, 255) else (0, 255, 0)
  ({ st with
     registry := setA sid { bytetrackIds := [bt], team := tr.1, teamColor := tc } st.registry
     btToStable := setA bt sid st.btToStable
     nextStableId := sid + 1 }, tr.2)

/-- One iteration of the track loop of `stabilize_frame_tracks` for
`(bytetrack_id, track_data)`: a known ByteTrack id keeps its stable id
(the 200px teleport check only logs); a new one reconnects via
`find_missing_player_by_position` (appending the alias) or mints a
fresh stable id with a permanently locked team. -/
def processTrack (ta : Option TAState) (st : StabState) (out : List (ℕ × StableTrack))
    (frameNum : ℤ) (bt : ℕ) (bb : Bbox) :
    Option (Option TAState × StabState × List (ℕ × StableTrack)) :=
  match lookupA bt st.btToStable with
  | some sid =>
      match finishTrack st out frameNum bb sid with
      | none => none
      | some (st2, out2) => some (ta, st2, out2)
  | none =>
      match findMissingPlayerByPosition st (getPositionFromBbox bb) frameNum with
      | some sid =>
          match lookupA sid st.registry with
          | none => none
          | some info =>
              match finishTrack (reconnectState st sid info bt) out frameNum bb sid with
              | none => none
              | some (st3, out2) => some (ta, st3, out2)
      | none =>
          match finishTrack (mintState ta st bt bb).1 out frameNum bb st.nextStableId with
          | none => none
          | some (st3, out2) => some ((mintState ta st bt bb).2, st3, out2)

/-- The track loop of `stabilize_frame_tracks`. -/
def stabilizeGo (frameNum : ℤ) :
    Option TAState → StabState → List (ℕ × StableTrack) → List (ℕ × Bbox) →
    Option (Option TAState × StabState × List (ℕ × StableTrack))
  | ta, st, out, [] => some (ta, st, out)
  | ta, st, out, (bt, bb) :: rest =>
      match processTrack ta st out frameNum bt bb with
      | none => none
      | some (ta2, st2, out2) => stabilizeGo frameNum ta2 st2 out2 rest

/-- `IDStabilizer.cleanup_old_players`: stable ids unseen for more than
120 frames are evicted; their alias ByteTrack ids are unmapped and their
registry, `last_seen` and position-history entries are deleted. -/
def cleanupOldPlayers (st : StabState) (frameNum : ℤ) : StabState :=
  let evicted := st.registry.filter (fun e =>
    match lookupA e.1 st.lastSeen with
    | some ls => decide (frameNum - ls > 120)
    | none => false)
  let evictedIds := evicted.map Prod.fst
  let evictedBts := evicted.foldl (fun acc e => acc ++ e.2.bytetrackIds) []
  { st with
    registry := st.registry.filter (fun e => decide (e.1 ∉ evictedIds))
    btToStable := st.btToStable.filter (fun m => decide (m.1 ∉ evictedBts))
    lastSeen := st.lastSeen.filter (fun m => decide (m.1 ∉ evictedIds))
    posHistory := st.posHistory.filter (fun m => decide (m.1 ∉ evictedIds)) }

/-- `IDStabilizer.stabilize_frame_tracks`: run the track loop, then the
cleanup. -/
def stabilizeFrameTracks (ta : Option TAState) (st : StabState) (raw : List (ℕ × Bbox))
    (frameNum : ℤ) : Option (Option TAState × StabState × List (ℕ × StableTrack)) :=
  match stabilizeGo frameNum ta st [] raw with
  | none => none
  | some (ta2, st2, out) => some (ta2, cleanupOldPlayers st2 frameNum, out)

/-- A run of the stabilizer over a sequence of frames
`(frame_num, raw_tracks)`, collecting the per-frame outputs. -/
def stabRun (ta : Option TAState) (st : StabState) :
    List (ℤ × List (ℕ × Bbox)) →
    Option (Option TAState × StabState × List (List (ℕ × StableTrack)))
  | [] => some (ta, st, [])
  | (fn, raw) :: rest =>
      match stabilizeFrameTracks ta st raw fn with
      | none => none
      | some (ta2, st2, out) =>
          match stabRun ta2 st2 rest with
          | none => none
          | some (ta3, st3, outs) => some (ta3, st3, out :: outs)

/-- Eligibility of a candidate recorded by `findMissingGo`: a `last_seen`
gap in `(0, 10]`, a recorded last position, and squared distance `d`
(to the query position) below `80²`. -/
def GoodCand (st : StabState) (pos : ℚ × ℚ) (frameNum : ℤ) (s : ℕ) (d : ℚ) : Prop :=
  ∃ ls, lookupA s st.lastSeen = some ls ∧ frameNum - ls ≤ 10 ∧ frameNum - ls > 0 ∧
    ∃ hist lastEntry, lookupA s st.posHistory = some hist ∧ hist.getLast? = some lastEntry ∧
      d = measureDistSq pos (lastEntry.2.1, lastEntry.2.2) ∧ d < 80 ^ 2

/-- Well-formedness of a stabilizer state, holding initially and
preserved by every frame: every ByteTrack mapping points at a live
registry entry that lists it as an alias; every alias of a live entry is
mapped back to that entry; live ids are below `next_stable_id`; and the
dict key lists are duplicate-free. -/
def WF (st : StabState) : Prop :=
  (∀ p ∈ st.btToStable, ∃ info, lookupA p.2 st.registry = some info ∧ p.1 ∈ info.bytetrackIds) ∧
  (∀ e ∈ st.registry, ∀ b ∈ e.2.bytetrackIds, lookupA b st.btToStable = some e.1) ∧
  (∀ e ∈ st.registry, e.1 < st.nextStableId) ∧
  (st.registry.map Prod.fst).Nodup ∧
  (st.btToStable.map Prod.fst).Nodup

end IDStabilizer

namespace PersistentIDManager

/-- One entry of `PersistentIDManager.player_registry`:
`{'team': 1/2, 'color': (r,g,b), 'last_seen': frame_num}`. -/
structure PRegInfo where
  team : ℕ
  color : Color
  lastSeen : ℤ
deriving DecidableEq, Repr

/-- The state of a `PersistentIDManager` (thresholds
`max_distance_for_reconnect = 100` and `max_frames_missing = 15`
inlined). -/
structure PIMState where
  playerRegistry : List (ℕ × PRegInfo)
  posHistory : List (ℕ × List (ℤ × ℚ × ℚ))
  nextTeam1Id : ℕ
  nextTeam2Id : ℕ

/-- The registry scan of
`PersistentIDManager.find_closest_missing_player`: only candidates of
the SAME team, missing between 1 and 15 frames, with a nonempty
position history and squared distance below `100²` beating the best. -/
def findClosestGo (st : PIMState) (pos : ℚ × ℚ) (team : ℕ) (frameNum : ℤ) :
    List (ℕ × PRegInfo) → Option (ℕ × ℚ) → Option (ℕ × ℚ)
  | [], best => best
  | (pid, info) :: rest, best =>
      if info.team = team ∧ frameNum - info.lastSeen ≤ 15 ∧ frameNum - info.lastSeen > 0 then
        match lookupA pid st.posHistory with
        | none => findClosestGo st pos team frameNum rest best
        | some hist =>
            match hist.getLast? with
            | none => findClosestGo st pos team frameNum rest best
            | some lastEntry =>
                let d := measureDistSq pos (lastEntry.2.1, lastEntry.2.2)
                match best with
                | none =>
                    if d < 100 ^ 2 then findClosestGo st pos team frameNum rest (some (pid, d))
                    else findClosestGo st pos team frameNum rest best
                | some b =>
                    if d < 100 ^ 2 ∧ d < b.2 then
                      findClosestGo st pos team frameNum rest (some (pid, d))
                    else findClosestGo st pos team frameNum rest best
      else findClosestGo st pos team frameNum rest best

/-- `PersistentIDManager.find_closest_missing_player`. -/
def findClosestMissingPlayer (st : PIMState) (pos : ℚ × ℚ) (team : ℕ) (frameNum : ℤ) :
    Option ℕ :=
  (findClosestGo st pos team frameNum st.playerRegistry none).map Prod.fst

/-- Eligibility of a candidate recorded by `findClosestGo`: registered on
the queried team, a `last_seen` gap in `(0, 15]`, a recorded last
position, and squared distance `d` below `100²`. -/
def GoodPCand (st : PIMState) (pos : ℚ × ℚ) (team : ℕ) (frameNum : ℤ) (p : ℕ) (d : ℚ) : Prop :=
  ∃ info, (p, info) ∈ st.playerRegistry ∧ info.team = team ∧
    frameNum - info.lastSeen ≤ 15 ∧ frameNum - info.lastSeen > 0 ∧
    ∃ hist lastEntry, lookupA p st.posHistory = some hist ∧ hist.getLast? = some lastEntry ∧
      d = measureDistSq pos (lastEntry.2.1, lastEntry.2.2) ∧ d < 100 ^ 2

/-- `PersistentIDManager.assign_new_id`: team 1 draws from 1-11, team 2
from 12-22; a full team yields `None`. -/
def assignNewId (st : PIMState) (team : ℕ) : Option ℕ × PIMState :=
  if team = 1 ∧ st.nextTeam1Id ≤ 11 then
    (some st.nextTeam1Id, { st with nextTeam1Id := st.nextTeam1Id + 1 })
  else if team = 2 ∧ st.nextTeam2Id ≤ 22 then
    (some st.nextTeam2Id, { st with nextTeam2Id := st.nextTeam2Id + 1 })
  else (none, st)

end PersistentIDManager

namespace AdvancedTracker

open PlayerBallAssigner

/-- The ball loop of `AdvancedTracker.assign_ball_possession` for one
frame: the first ball whose `assign_ball_to_player` result is not `-1`
becomes the single assignment (`break`). -/
def findFirstHolder (players : List (ℕ × Bbox)) : List (ℕ × Bbox) → Option ℕ
  | [] => none
  | (_, ballBb) :: rest =>
      match assignBallToPlayer players ballBb with
      | some p => some p
      | none => findFirstHolder players rest

/-- One frame of `AdvancedTracker.assign_ball_possession`: all `has_ball`
flags are cleared, then the assigned holder (if any) is set. -/
def assignBallPossessionFrame (players : List (ℕ × Bbox)) (balls : List (ℕ × Bbox)) :
    List (ℕ × Bbox × Bool) :=
  match findFirstHolder players balls with
  | none => players.map (fun p => (p.1, p.2, false))
  | some h => players.map (fun p => (p.1, p.2, decide (p.1 = h)))

/-- `AdvancedTracker.assign_ball_possession` over the frame sequence
(`tracks['players']` and `tracks['ball']` have one entry per frame in
the pipeline, so the ranges coincide). -/
def assignBallPossession (playersFrames ballFrames : List (List (ℕ × Bbox))) :
    List (List (ℕ × Bbox × Bool)) :=
  List.zipWith assignBallPossessionFrame playersFrames ballFrames

end AdvancedTracker

/-! Concrete inputs for the witnesses and counterexamples. -/

/-- A 20x20 bbox centered at `(100, 100)`. -/
def bbC : Bbox := ⟨90, 90, 110, 110⟩

/-- C1 counterexample: classifier that assigns team 2 to everything. -/
def clsTwo : ℕ → Bbox → ℕ := fun _ _ => 2

/-- C1 counterexample run: track 5 is first seen before team
initialization (defaulted to team 1), is rejected and evicted after
initialization, and reappears with classified team 2. -/
def evC1 : List SmartTracker.PipeEvent :=
  [SmartTracker.PipeEvent.frame 0 (some 0) [(5, bbC)],
   SmartTracker.PipeEvent.initTeams clsTwo (250, 250, 250) (0, 200, 0),
   SmartTracker.PipeEvent.frame 61 (some 61) [(5, bbC)],
   SmartTracker.PipeEvent.frame 62 (some 62) [(5, bbC)]]

/-- C1 witness: an assigner with player 7 locked to team 2. -/
def taC1W : TeamAssigner.TAState :=
  { teamColors := [], playerTeamDict := [(7, 2)], classifier := none }

/-- C1 witness: one unrelated later call. -/
def callsC1W : List (Option ℕ × Bbox × ℕ) := [(none, bbC, 9)]

/-- C1 witness: a history entry locking track 5 to team 1. -/
def histC1W : SmartTracker.HistEntry :=
  { team := 1, teamColor := (255, 255, 255), positions := [(100, 100)], lastFrame := 0 }

/-- C1 witness: a smart-tracker state with track 5 locked to team 1. -/
def smC1W : SmartTracker.SmartState :=
  { history := [(5, histC1W)], teamColors := [(1, (255, 255, 255)), (2, (0, 255, 0))] }

/-- C2 witness: a prefix run minting stable id 1 at frame 1 and evicting
it at frame 122 (121 frames unseen > 120). -/
def preC2 : List (ℤ × List (ℕ × Bbox)) := [(1, [(10, bbC)]), (122, [])]

/-- C2 witness: a later frame with a fresh ByteTrack id at the same
place. -/
def postC2 : List (ℤ × List (ℕ × Bbox)) := [(123, [(11, bbC)])]

/-- C2 counterexample: frame 2 carries two concurrent ByteTrack tracks,
the fresh id 11 listed before the still-active id 10 that minted stable
id 1 in frame 1. -/
def framesC2bad : List (ℤ × List (ℕ × Bbox)) :=
  [(1, [(10, bbC)]), (2, [(11, bbC), (10, bbC)])]

/-- The stabilizer run over `framesC2bad`. -/
def resC2bad : Option (Option TeamAssigner.TAState × IDStabilizer.StabState ×
    List (List (ℕ × IDStabilizer.StableTrack))) :=
  IDStabilizer.stabRun none IDStabilizer.initStabState framesC2bad

/-- C2 witness: the state after the prefix `preC2` — stable id 1 was
minted at frame 1 and evicted at frame 122, leaving an empty registry
with the counter at 2. -/
def st1C2 : IDStabilizer.StabState :=
  { registry := [], btToStable := [], posHistory := [], lastSeen := [], nextStableId := 2 }

/-- C2 witness: the per-frame outputs of the prefix `preC2`. -/
def outs1C2 : List (List (ℕ × IDStabilizer.StableTrack)) :=
  [[(1, ⟨bbC, 1, (255, 255, 255)⟩)], []]

/-- C2 witness: the state after one frame (number 1) with the two fresh
ByteTrack ids 10 and 11, minting stable ids 1 and 2. -/
def stAW : IDStabilizer.StabState :=
  { registry := [(1, ⟨[10], 1, (255, 255, 255)⟩), (2, ⟨[11], 1, (255, 255, 255)⟩)]
    btToStable := [(10, 1), (11, 2)]
    posHistory := [(1, [(1, 100, 100)]), (2, [(1, 100, 100)])]
    lastSeen := [(1, 1), (2, 1)]
    nextStableId := 3 }

/-- C2 witness: the frame output matching `stAW`. -/
def outAW : List (ℕ × IDStabilizer.StableTrack) :=
  [(1, ⟨bbC, 1, (255, 255, 255)⟩), (2, ⟨bbC, 1, (255, 255, 255)⟩)]

/-- C2 witness: the state after running `postC2` from `st1C2` — ByteTrack
id 11 mints the fresh stable id 2, not the evicted id 1. -/
def st3C2 : IDStabilizer.StabState :=
  { registry := [(2, ⟨[11], 1, (255, 255, 255)⟩)]
    btToStable := [(11, 2)]
    posHistory := [(2, [(123, 100, 100)])]
    lastSeen := [(2, 123)]
    nextStableId := 3 }

/-- C2 witness: the per-frame outputs of `postC2` from `st1C2`. -/
def outs3C2 : List (List (ℕ × IDStabilizer.StableTrack)) :=
  [[(2, ⟨bbC, 1, (255, 255, 255)⟩)]]

/-- C3 witness: a stabilizer state with stable id 1 last seen at frame 1
at `(100, 100)`. -/
def stC3 : IDStabilizer.StabState :=
  { registry := [(1, { bytetrackIds := [10], team := 1, teamColor := (255, 255, 255) })]
    btToStable := [(10, 1)]
    posHistory := [(1, [(1, 100, 100)])]
    lastSeen := [(1, 1)]
    nextStableId := 2 }

/-- C4 counterexample: an assigner whose lock table already assigns the
next stable id 1 to team 2 (so the minted entity is locked to team 2),
while a would-be mint of id 2 would classify as team 1. -/
def taC4 : TeamAssigner.TAState :=
  { teamColors := [], playerTeamDict := [(1, 2)], classifier := none }

/-- C4 counterexample run: frame 1 mints stable id 1 (team 2); frame 3
reconnects the new ByteTrack id 11 to it despite the team mismatch. -/
def runC4 : List (ℤ × List (ℕ × Bbox)) := [(1, [(10, bbC)]), (3, [(11, bbC)])]

/-- C4 witness: a persistent-manager registry with a team-2 and a team-1
candidate both at `(100, 100)`, both missing since frame 1. -/
def stC4W : PersistentIDManager.PIMState :=
  { playerRegistry :=
      [(13, { team := 2, color := (0, 255, 0), lastSeen := 1 }),
       (4, { team := 1, color := (255, 255, 255), lastSeen := 1 })]
    posHistory := [(13, [(1, 100, 100)]), (4, [(1, 100, 100)])]
    nextTeam1Id := 5
    nextTeam2Id := 14 }

/-- C5: a ball bbox with center `(5, 5)`. -/
def ballBbC5 : Bbox := ⟨0, 0, 10, 10⟩

/-- C5: a player within the 70px threshold of the ball. -/
def nearBbC5 : Bbox := ⟨0, 0, 10, 10⟩

/-- C5: a player far outside the 70px threshold. -/
def farBbC5 : Bbox := ⟨500, 0, 510, 10⟩

/-- The C1 counterexample run's result. -/
def resC1 : TeamAssigner.TAState × SmartTracker.SmartState ×
    List (List (ℕ × SmartTracker.SmartOut)) :=
  SmartTracker.runPipeline evC1

/-- The output record of track 5 in frame 0 of the C1 run. -/
def outC1a : SmartTracker.SmartOut :=
  { bbox := bbC, team := 1, teamColor := (255, 255, 255) }

/-- The output record of track 5 in frame 62 of the C1 run. -/
def outC1b : SmartTracker.SmartOut :=
  { bbox := bbC, team := 2, teamColor := (0, 200, 0) }

/-- The C4 counterexample run's result. -/
def resC4 : Option (Option TeamAssigner.TAState × IDStabilizer.StabState ×
    List (List (ℕ × IDStabilizer.StableTrack))) :=
  IDStabilizer.stabRun (some taC4) IDStabilizer.initStabState runC4

/-- Witness input for C8: one camera-movement sample `(12, -3)`. -/
def cmsW : List (ℚ × ℚ) := [(12, -3)]

/-- Witness input for C8: a track with a raw position. -/
def infoPosW : Camera.TrackInfo := { position := some (100, 50), positionAdjusted := none }

/-- Witness input for C8: a track without a raw position. -/
def infoNoPosW : Camera.TrackInfo := { position := none, positionAdjusted := none }

/-- Witness input for C8: a one-object, one-frame track structure. -/
def tracksW : List (String × List (List (ℕ × Camera.TrackInfo))) :=
  [("players", [[(1, infoPosW), (2, infoNoPosW)]])]

/-- Witness value for C8: the positioned track after compensation. -/
def infoAdjW : Camera.TrackInfo :=
  { position := some (100, 50), positionAdjusted := some (88, 53) }

/-- Witness inputs for C9: a detector oracle. -/
def detectW : ℕ → Option Camera.Features := fun i => some [((i : ℚ), 0)]

/-- Witness inputs for C9: a flow oracle displacing the single feature by
`(10, 0)` (beyond the 5-pixel noise floor). -/
def flowW : ℕ → Option Camera.Features → Option Camera.Features :=
  fun _ ofs => ofs.map (List.map (fun p => (p.1 + 10, p.2)))

end Playbook

namespace Playbook

/-! Theorems. -/

theorem measureDistSq_nonneg (p q : ℚ × ℚ) : 0 ≤ measureDistSq p q := by
  have h1 : (0 : ℚ) ≤ (p.1 - q.1) ^ 2 := sq_nonneg _
  have h2 : (0 : ℚ) ≤ (p.2 - q.2) ^ 2 := sq_nonneg _
  unfold measureDistSq
  linarith

theorem lookupA_setA_self {β : Type} (k : ℕ) (v : β) (l : List (ℕ × β)) :
    lookupA k (setA k v l) = some v := by
  induction l with
  | nil => simp [setA, lookupA]
  | cons hd tl ih =>
      obtain ⟨k', v'⟩ := hd
      by_cases h : k' = k
      · subst h; simp [setA, lookupA]
      · simp [setA, lookupA, h, ih]

theorem lookupA_setA_ne {β : Type} (k j : ℕ) (v : β) (l : List (ℕ × β)) (h : j ≠ k) :
    lookupA j (setA k v l) = lookupA j l := by
  induction l with
  | nil => simp [setA, lookupA, Ne.symm h]
  | cons hd tl ih =>
      obtain ⟨k', v'⟩ := hd
      by_cases hk : k' = k
      · subst hk
        simp [setA, lookupA, Ne.symm h]
      · by_cases hj : k' = j
        · simp [setA, lookupA, hk, hj, h]
        · simp [setA, lookupA, hk, hj, ih]

theorem lookupA_eq_of_nodup {β : Type} :
    ∀ {l : List (ℕ × β)}, (l.map Prod.fst).Nodup →
      ∀ {k : ℕ} {v v' : β}, lookupA k l = some v → (k, v') ∈ l → v' = v := by
  intro l
  induction l with
  | nil =>
      intro _ k v v' _ hmem
      exact absurd hmem (List.not_mem_nil _)
  | cons hd tl ih =>
      obtain ⟨k0, v0⟩ := hd
      intro hn k v v' hlook hmem
      have hn2 : (tl.map Prod.fst).Nodup := (List.nodup_cons.mp hn).2
      have hk0 : k0 ∉ tl.map Prod.fst := (List.nodup_cons.mp hn).1
      by_cases hk : k0 = k
      · subst hk
        rw [lookupA, if_pos rfl] at hlook
        obtain rfl : v0 = v := by injection hlook
        rcases List.mem_cons.mp hmem with h | h
        · exact (congrArg Prod.snd h)
        · exact absurd (List.mem_map_of_mem Prod.fst h) hk0
      · rw [lookupA, if_neg hk] at hlook
        rcases List.mem_cons.mp hmem with h | h
        · exact absurd (congrArg Prod.fst h).symm hk
        · exact ih hn2 hlook h

theorem lookupA_mem {β : Type} {k : ℕ} {v : β} :
    ∀ {l : List (ℕ × β)}, lookupA k l = some v → (k, v) ∈ l := by
  intro l
  induction l with
  | nil => intro h; exact absurd h (by simp [lookupA])
  | cons hd tl ih =>
      obtain ⟨k', v'⟩ := hd
      intro h
      by_cases hk : k' = k
      · subst hk
        rw [lookupA, if_pos rfl] at h
        obtain rfl : v' = v := by injection h
        exact List.mem_cons_self _ _
      · rw [lookupA, if_neg hk] at h
        exact List.mem_cons_of_mem _ (ih h)

theorem mem_setA {β : Type} {k k' : ℕ} {v v' : β} :
    ∀ {l : List (ℕ × β)}, (k', v') ∈ setA k v l → (k' = k ∧ v' = v) ∨ (k', v') ∈ l := by
  intro l
  induction l with
  | nil =>
      intro h
      rw [setA] at h
      rcases List.mem_singleton.mp h with h
      exact Or.inl ⟨congrArg Prod.fst h, congrArg Prod.snd h⟩
  | cons hd tl ih =>
      obtain ⟨k0, v0⟩ := hd
      intro h
      by_cases hk : k0 = k
      · subst hk
        rw [setA, if_pos rfl] at h
        rcases List.mem_cons.mp h with h | h
        · exact Or.inl ⟨congrArg Prod.fst h, congrArg Prod.snd h⟩
        · exact Or.inr (List.mem_cons_of_mem _ h)
      · rw [setA, if_neg hk] at h
        rcases List.mem_cons.mp h with h | h
        · exact Or.inr (List.mem_cons.mpr (Or.inl h))
        · rcases ih h with h | h
          · exact Or.inl h
          · exact Or.inr (List.mem_cons_of_mem _ h)

theorem nodup_keys_setA {β : Type} (k : ℕ) (v : β) :
    ∀ {l : List (ℕ × β)}, (l.map Prod.fst).Nodup → ((setA k v l).map Prod.fst).Nodup := by
  intro l
  induction l with
  | nil =>
      intro _
      simp [setA]
  | cons hd tl ih =>
      obtain ⟨k0, v0⟩ := hd
      intro hn
      obtain ⟨hk0, hn2⟩ := List.nodup_cons.mp hn
      by_cases hk : k0 = k
      · subst hk
        rw [setA, if_pos rfl]
        exact List.nodup_cons.mpr ⟨hk0, hn2⟩
      · rw [setA, if_neg hk]
        refine List.nodup_cons.mpr ⟨?_, ih hn2⟩
        intro hmem
        simp only [List.mem_map] at hmem
        obtain ⟨p, hp, hpk⟩ := hmem
        rcases mem_setA hp with ⟨h1, _⟩ | h1
        · exact hk (by rw [← hpk, h1])
        · refine hk0 ?_
          rw [← hpk]
          exact List.mem_map.mpr ⟨(p.1, p.2), h1, rfl⟩

theorem lookupA_filter_key {β : Type} (q : ℕ → Bool) (k : ℕ) (v : β) :
    ∀ {l : List (ℕ × β)}, lookupA k l = some v → q k = true →
      lookupA k (l.filter (fun m => q m.1)) = some v := by
  intro l
  induction l with
  | nil =>
      intro h _
      exact absurd h (by simp [lookupA])
  | cons hd tl ih =>
      obtain ⟨k0, v0⟩ := hd
      intro h hq
      by_cases hk : k0 = k
      · subst hk
        rw [lookupA, if_pos rfl] at h
        rw [List.filter_cons, if_pos (by simpa using hq), lookupA, if_pos rfl]
        exact h
      · rw [lookupA, if_neg hk] at h
        rw [List.filter_cons]
        by_cases hq0 : q k0 = true
        · rw [if_pos (by simpa using hq0), lookupA, if_neg hk]
          exact ih h hq
        · rw [if_neg (by simpa using hq0)]
          exact ih h hq

theorem lookupA_filter_none {β : Type} (p : ℕ × β → Bool) (k : ℕ) :
    ∀ {l : List (ℕ × β)}, lookupA k l = none → lookupA k (l.filter p) = none := by
  intro l
  induction l with
  | nil =>
      intro _
      simp [lookupA]
  | cons hd tl ih =>
      obtain ⟨k0, v0⟩ := hd
      intro h
      have hk : k0 ≠ k := by
        intro he
        rw [lookupA, if_pos he] at h
        cases h
      rw [lookupA, if_neg hk] at h
      rw [List.filter_cons]
      by_cases hp : p (k0, v0) = true
      · rw [if_pos (by simpa using hp), lookupA, if_neg hk]
        exact ih h
      · rw [if_neg (by simpa using hp)]
        exact ih h

theorem lookupA_isSome_of_mem {β : Type} {k : ℕ} {v : β} :
    ∀ {l : List (ℕ × β)}, (k, v) ∈ l → ∃ v2, lookupA k l = some v2 := by
  intro l
  induction l with
  | nil =>
      intro h
      exact absurd h (List.not_mem_nil _)
  | cons hd tl ih =>
      obtain ⟨k0, v0⟩ := hd
      intro h
      by_cases hk : k0 = k
      · exact ⟨v0, by rw [lookupA, if_pos hk]⟩
      · rcases List.mem_cons.mp h with h1 | h1
        · exact absurd (congrArg Prod.fst h1).symm hk
        · obtain ⟨v2, hv2⟩ := ih h1
          exact ⟨v2, by rw [lookupA, if_neg hk]; exact hv2⟩

namespace PlayerBallAssigner

/-- Fold invariant for `assignGo`: the final minimum never exceeds the
incoming one, every in-range player bounds the final minimum from below,
and an assigned player is either the incoming one (unchanged) or a list
member realizing the final minimum within range. -/
theorem assignGo_spec (ball : ℤ × ℤ) :
    ∀ (l : List (ℕ × Bbox)) (minSq : ℚ) (assigned : Option ℕ),
      (assignGo ball l minSq assigned).1 ≤ minSq ∧
      (∀ q ∈ l, playerDistSq q.2 ball < 70 ^ 2 →
        (assignGo ball l minSq assigned).1 ≤ playerDistSq q.2 ball) ∧
      ((assignGo ball l minSq assigned).2 = assigned ∧
          (assignGo ball l minSq assigned).1 = minSq ∨
        ∃ p ∈ l, (assignGo ball l minSq assigned).2 = some p.1 ∧
          (assignGo ball l minSq assigned).1 = playerDistSq p.2 ball ∧
          playerDistSq p.2 ball < 70 ^ 2) := by
  intro l
  induction l with
  | nil =>
      intro minSq assigned
      refine ⟨le_refl _, ?_, Or.inl ⟨rfl, rfl⟩⟩
      intro q hq
      exact absurd hq (List.not_mem_nil q)
  | cons hd tl ih =>
      intro minSq assigned
      by_cases hcond : playerDistSq hd.2 ball < 70 ^ 2 ∧ playerDistSq hd.2 ball < minSq
      · have hrw : assignGo ball (hd :: tl) minSq assigned =
            assignGo ball tl (playerDistSq hd.2 ball) (some hd.1) := by
          cases hd with
          | mk pid pb => simp [assignGo, hcond]
        obtain ⟨h1, h2, h3⟩ := ih (playerDistSq hd.2 ball) (some hd.1)
        rw [hrw]
        refine ⟨le_trans h1 (le_of_lt hcond.2), ?_, ?_⟩
        · intro q hq hqlt
          rcases List.mem_cons.mp hq with hq | hq
          · rw [hq]; exact h1
          · exact h2 q hq hqlt
        · rcases h3 with ⟨ha, hm⟩ | ⟨p, hp, ha, hm, hlt⟩
          · exact Or.inr ⟨hd, List.mem_cons_self hd tl, ha, hm, hcond.1⟩
          · exact Or.inr ⟨p, List.mem_cons_of_mem hd hp, ha, hm, hlt⟩
      · have hrw : assignGo ball (hd :: tl) minSq assigned =
            assignGo ball tl minSq assigned := by
          cases hd with
          | mk pid pb => simp [assignGo]; intro h1 h2; exact absurd ⟨h1, h2⟩ hcond
        obtain ⟨h1, h2, h3⟩ := ih minSq assigned
        rw [hrw]
        refine ⟨h1, ?_, ?_⟩
        · intro q hq hqlt
          rcases List.mem_cons.mp hq with hq | hq
          · rw [hq]
            by_cases hlt : playerDistSq hd.2 ball < minSq
            · exact absurd ⟨hq ▸ hqlt, hlt⟩ hcond
            · exact le_trans h1 (le_of_not_lt hlt)
          · exact h2 q hq hqlt
        · rcases h3 with ⟨ha, hm⟩ | ⟨p, hp, ha, hm, hlt⟩
          · exact Or.inl ⟨ha, hm⟩
          · exact Or.inr ⟨p, List.mem_cons_of_mem hd hp, ha, hm, hlt⟩

/-- C6.  Ball-holder selection: whenever `assign_ball_to_player` assigns a
holder, that holder appears in the player mapping with squared
ball-to-nearest-bottom-corner distance strictly below `70²` and minimal
among all players; and when it assigns no holder, every player's squared
distance is at least `70²`.  (Distances are compared squared; the source
compares the square roots, which is equivalent.) -/
theorem assignBallToPlayer_selects_min (players : List (ℕ × Bbox)) (ballBbox : Bbox) :
    (∀ p : ℕ, assignBallToPlayer players ballBbox = some p →
      ∃ pb : Bbox, (p, pb) ∈ players ∧
        playerDistSq pb (getCenterOfBbox ballBbox) < 70 ^ 2 ∧
        ∀ q ∈ players, playerDistSq pb (getCenterOfBbox ballBbox) ≤
          playerDistSq q.2 (getCenterOfBbox ballBbox)) ∧
    (assignBallToPlayer players ballBbox = none →
      ∀ q ∈ players, 70 ^ 2 ≤ playerDistSq q.2 (getCenterOfBbox ballBbox)) := by
  obtain ⟨h1, h2, h3⟩ := assignGo_spec (getCenterOfBbox ballBbox) players ((99999 : ℚ) ^ 2) none
  constructor
  · intro p hp
    rcases h3 with ⟨ha, _⟩ | ⟨q, hq, ha, hm, hlt⟩
    · rw [assignBallToPlayer, ha] at hp
      exact absurd hp (by simp)
    · rw [assignBallToPlayer, ha] at hp
      obtain rfl : q.1 = p := by injection hp
      refine ⟨q.2, by simpa using hq, hlt, ?_⟩
      intro r hr
      by_cases hrlt : playerDistSq r.2 (getCenterOfBbox ballBbox) < 70 ^ 2
      · have := h2 r hr hrlt
        rw [hm] at this
        exact this
      · exact le_trans (le_of_lt hlt) (le_of_not_lt hrlt)
  · intro hnone q hq
    by_contra hlt
    push_neg at hlt
    rcases h3 with ⟨_, hm⟩ | ⟨r, _, ha, _, _⟩
    · have hb := h2 q hq hlt
      rw [hm] at hb
      have : playerDistSq q.2 (getCenterOfBbox ballBbox) < (99999 : ℚ) ^ 2 := by
        have h70 : (70 : ℚ) ^ 2 < (99999 : ℚ) ^ 2 := by norm_num
        exact lt_trans hlt h70
      linarith
    · rw [assignBallToPlayer, ha] at hnone
      exact absurd hnone (by simp)

/-- Witness for C6: with the ball at the origin-centered bbox, the nearer
of two players is assigned. -/
theorem assignBallToPlayer_selects_min_witness :
    assignBallToPlayer [(1, ⟨0, 0, 10, 10⟩), (2, ⟨200, 0, 210, 10⟩)] ⟨0, 0, 10, 10⟩ =
      some 1 ∧
    ∃ pb : Bbox, (1, pb) ∈ [((1 : ℕ), (⟨0, 0, 10, 10⟩ : Bbox)), (2, ⟨200, 0, 210, 10⟩)] ∧
      playerDistSq pb (getCenterOfBbox ⟨0, 0, 10, 10⟩) < 70 ^ 2 ∧
      ∀ q ∈ [((1 : ℕ), (⟨0, 0, 10, 10⟩ : Bbox)), (2, ⟨200, 0, 210, 10⟩)],
        playerDistSq pb (getCenterOfBbox ⟨0, 0, 10, 10⟩) ≤
          playerDistSq q.2 (getCenterOfBbox ⟨0, 0, 10, 10⟩) :=
  ⟨by norm_num [assignBallToPlayer, assignGo, playerDistSq, measureDistSq,
      getCenterOfBbox, truncToInt],
   (assignBallToPlayer_selects_min [(1, ⟨0, 0, 10, 10⟩), (2, ⟨200, 0, 210, 10⟩)]
      ⟨0, 0, 10, 10⟩).1 1
     (by norm_num [assignBallToPlayer, assignGo, playerDistSq, measureDistSq,
        getCenterOfBbox, truncToInt])⟩

end PlayerBallAssigner

namespace AppStats

theorem passStep_eq_of_none {frame : List FramePlayer} (st : PassState)
    (hcur : currentHolder frame = none) : passStep st frame = st := by
  rcases hlast : st.lastHolder with _ | ⟨lid, lteam⟩ <;>
    · unfold passStep
      rw [hcur, hlast]

theorem passStep_eq_some_none {frame : List FramePlayer} (st : PassState) {cid cteam : ℕ}
    (hcur : currentHolder frame = some (cid, cteam)) (hlast : st.lastHolder = none) :
    passStep st frame = { st with lastHolder := some (cid, cteam) } := by
  unfold passStep
  rw [hcur, hlast]

theorem passStep_eq_some_some {frame : List FramePlayer} (st : PassState) {cid cteam lid lteam : ℕ}
    (hcur : currentHolder frame = some (cid, cteam)) (hlast : st.lastHolder = some (lid, lteam)) :
    passStep st frame =
      { recordPass st cid cteam lid lteam with lastHolder := some (cid, cteam) } := by
  unfold passStep
  rw [hcur, hlast]

/-- C7.  Pass/turnover exclusivity: in any frame, at most one of the two
team pass counters increases; and when the holder changes to a different
entity, exactly one pass is recorded on the total, on the holder's team
counter (the other team's counter unchanged), and on the prior holder's
personal tally (all other tallies unchanged) when the teams agree, while
nothing is recorded when the teams differ or no prior holder exists. -/
theorem passStep_exclusive (st : PassState) (frame : List FramePlayer) :
    (¬((passStep st frame).team1 > st.team1 ∧ (passStep st frame).team2 > st.team2)) ∧
    (∀ cid cteam, currentHolder frame = some (cid, cteam) →
      (∀ lid lteam, st.lastHolder = some (lid, lteam) → cid ≠ lid → cteam = lteam →
        (passStep st frame).total = st.total + 1 ∧
        (cteam = 1 → (passStep st frame).team1 = st.team1 + 1 ∧
          (passStep st frame).team2 = st.team2) ∧
        (cteam ≠ 1 → (passStep st frame).team2 = st.team2 + 1 ∧
          (passStep st frame).team1 = st.team1) ∧
        lookupA lid (passStep st frame).playerPasses =
          some ((lookupA lid st.playerPasses).getD 0 + 1) ∧
        (∀ q, q ≠ lid → lookupA q (passStep st frame).playerPasses =
          lookupA q st.playerPasses)) ∧
      (st.lastHolder = none →
        (passStep st frame).total = st.total ∧
        (passStep st frame).team1 = st.team1 ∧
        (passStep st frame).team2 = st.team2 ∧
        (passStep st frame).playerPasses = st.playerPasses) ∧
      (∀ lid lteam, st.lastHolder = some (lid, lteam) → (cid = lid ∨ cteam ≠ lteam) →
        (passStep st frame).total = st.total ∧
        (passStep st frame).team1 = st.team1 ∧
        (passStep st frame).team2 = st.team2 ∧
        (passStep st frame).playerPasses = st.playerPasses)) := by
  constructor
  · rcases hcur : currentHolder frame with _ | ⟨cid, cteam⟩
    · rw [passStep_eq_of_none st hcur]
      omega
    · rcases hlast : st.lastHolder with _ | ⟨lid, lteam⟩
      · rw [passStep_eq_some_none st hcur hlast]
        simp
      · rw [passStep_eq_some_some st hcur hlast]
        unfold recordPass
        by_cases hc : cid ≠ lid ∧ cteam = lteam
        · rw [if_pos hc]
          by_cases h1 : cteam = 1 <;> simp only [h1, if_pos, if_neg, ite_true, ite_false] <;> omega
        · rw [if_neg hc]
          simp
  · intro cid cteam hcur
    refine ⟨?_, ?_, ?_⟩
    · intro lid lteam hlast hne hteam
      have hc : cid ≠ lid ∧ cteam = lteam := ⟨hne, hteam⟩
      rw [passStep_eq_some_some st hcur hlast]
      unfold recordPass
      rw [if_pos hc]
      refine ⟨rfl, ?_, ?_, ?_, ?_⟩
      · intro h1; simp [h1]
      · intro h1; simp [h1]
      · simp [lookupA_setA_self]
      · intro q hq; simp [lookupA_setA_ne _ _ _ _ hq]
    · intro hlast
      rw [passStep_eq_some_none st hcur hlast]
      exact ⟨rfl, rfl, rfl, rfl⟩
    · intro lid lteam hlast hor
      have hc : ¬(cid ≠ lid ∧ cteam = lteam) := by
        rcases hor with h | h
        · intro hcc; exact hcc.1 h
        · intro hcc; exact h hcc.2
      rw [passStep_eq_some_some st hcur hlast]
      unfold recordPass
      rw [if_neg hc]
      exact ⟨rfl, rfl, rfl, rfl⟩

/-- Witness for C7: a concrete same-team holder change records exactly
one pass for team 1 and for the prior holder. -/
theorem passStep_exclusive_witness :
    let st : PassState :=
      { lastHolder := some (1, 1), total := 0, team1 := 0, team2 := 0, playerPasses := [] }
    let fr : List FramePlayer := [⟨2, 1, true⟩]
    (passStep st fr).total = 1 ∧ (passStep st fr).team1 = 1 ∧
      (passStep st fr).team2 = 0 ∧ lookupA 1 (passStep st fr).playerPasses = some 1 := by
  intro st fr
  have h := (passStep_exclusive st fr).2 2 1 (by decide)
  obtain ⟨hpass, -, -⟩ := h
  obtain ⟨ht, h1, -, hp, -⟩ := hpass 1 1 rfl (by decide) rfl
  obtain ⟨h1a, h1b⟩ := h1 rfl
  exact ⟨ht, h1a, h1b, by simpa using hp⟩

end AppStats

namespace Camera

theorem adjustFrame_spec (cms : List (ℚ × ℚ)) (i : ℕ) :
    ∀ (fr fr2 : List (ℕ × TrackInfo)), adjustFrame cms i fr = some fr2 →
      ∀ ti tid info, fr.get? ti = some (tid, info) →
        ∃ info2, fr2.get? ti = some (tid, info2) ∧ adjustInfoAt cms i info = some info2 := by
  intro fr
  induction fr with
  | nil =>
      intro fr2 _ ti tid info hti
      simp [List.get?] at hti
  | cons hd tl ih =>
      obtain ⟨htid, hinfo⟩ := hd
      intro fr2 hfr ti tid info hti
      unfold adjustFrame at hfr
      rcases ha : adjustInfoAt cms i hinfo with _ | info2 <;> rw [ha] at hfr
      · exact absurd hfr (by simp)
      · rcases hr : adjustFrame cms i tl with _ | rest2 <;> rw [hr] at hfr
        · exact absurd hfr (by simp)
        · obtain rfl : (htid, info2) :: rest2 = fr2 := by injection hfr
          cases ti with
          | zero =>
              obtain ⟨rfl, rfl⟩ : htid = tid ∧ hinfo = info := by
                have h := hti
                simp [List.get?] at h
                exact ⟨h.1, h.2⟩
              exact ⟨info2, rfl, ha⟩
          | succ tj =>
              obtain ⟨info3, h1, h2⟩ := ih rest2 hr tj tid info hti
              exact ⟨info3, h1, h2⟩

theorem adjustObject_spec (cms : List (ℚ × ℚ)) :
    ∀ (ot : List (List (ℕ × TrackInfo))) (s : ℕ) ot2, adjustObject cms s ot = some ot2 →
      ∀ fi fr, ot.get? fi = some fr →
        ∃ fr2, ot2.get? fi = some fr2 ∧ adjustFrame cms (s + fi) fr = some fr2 := by
  intro ot
  induction ot with
  | nil =>
      intro s ot2 _ fi fr hfi
      simp [List.get?] at hfi
  | cons hd tl ih =>
      intro s ot2 hot fi fr hfi
      unfold adjustObject at hot
      rcases ha : adjustFrame cms s hd with _ | fr2 <;> rw [ha] at hot
      · exact absurd hot (by simp)
      · rcases hr : adjustObject cms (s + 1) tl with _ | rest2 <;> rw [hr] at hot
        · exact absurd hot (by simp)
        · obtain rfl : fr2 :: rest2 = ot2 := by injection hot
          cases fi with
          | zero =>
              obtain rfl : hd = fr := by
                have h := hfi
                simp [List.get?] at h
                exact h
              exact ⟨fr2, rfl, by simpa using ha⟩
          | succ fj =>
              obtain ⟨fr3, h1, h2⟩ := ih (s + 1) rest2 hr fj fr hfi
              refine ⟨fr3, h1, ?_⟩
              have hidx : s + 1 + fj = s + (fj + 1) := by omega
              rw [← hidx]
              exact h2

/-- C8.  Camera compensation equation: whenever
`add_adjust_positions_to_tracks` succeeds, then for every object type,
frame index, and track of the input, the output keeps the same object
type at the same place and the same track id, and the track's record is
unchanged when it has no raw position, while a track with raw position
`p` gets `position_adjusted = (p.x - dx, p.y - dy)` for that frame's
camera movement `(dx, dy)` and is otherwise unchanged. -/
theorem addAdjustPositionsToTracks_spec (cms : List (ℚ × ℚ)) :
    ∀ (tracks res : List (String × List (List (ℕ × TrackInfo)))),
      addAdjustPositionsToTracks cms tracks = some res →
      ∀ oi ty ot, tracks.get? oi = some (ty, ot) →
        ∃ ot2, res.get? oi = some (ty, ot2) ∧
          ∀ fi fr, ot.get? fi = some fr →
            ∃ fr2, ot2.get? fi = some fr2 ∧
              ∀ ti tid info, fr.get? ti = some (tid, info) →
                ∃ info2, fr2.get? ti = some (tid, info2) ∧
                  ((info.position = none ∧ info2 = info) ∨
                   (∃ p cm, info.position = some p ∧ cms.get? fi = some cm ∧
                     info2 = { info with
                       positionAdjusted := some (p.1 - cm.1, p.2 - cm.2) })) := by
  intro tracks
  induction tracks with
  | nil =>
      intro res _ oi ty ot hoi
      simp [List.get?] at hoi
  | cons hd tl ih =>
      obtain ⟨hty, hot⟩ := hd
      intro res hres oi ty ot hoi
      unfold addAdjustPositionsToTracks at hres
      rcases ha : adjustObject cms 0 hot with _ | ot2 <;> rw [ha] at hres
      · exact absurd hres (by simp)
      · rcases hr : addAdjustPositionsToTracks cms tl with _ | rest2 <;> rw [hr] at hres
        · exact absurd hres (by simp)
        · obtain rfl : (hty, ot2) :: rest2 = res := by injection hres
          cases oi with
          | zero =>
              have hpair : hty = ty ∧ hot = ot := by
                have h := hoi
                simp [List.get?] at h
                exact ⟨h.1, h.2⟩
              obtain ⟨h5, h6⟩ := hpair
              subst h5
              subst h6
              refine ⟨ot2, rfl, ?_⟩
              intro fi fr hfi
              obtain ⟨fr2, h1, h2⟩ := adjustObject_spec cms hot 0 ot2 ha fi fr hfi
              refine ⟨fr2, h1, ?_⟩
              intro ti tid info hti
              have h2' : adjustFrame cms fi fr = some fr2 := by simpa using h2
              obtain ⟨info2, h3, h4⟩ := adjustFrame_spec cms fi fr fr2 h2' ti tid info hti
              refine ⟨info2, h3, ?_⟩
              unfold adjustInfoAt at h4
              rcases hp : info.position with _ | p <;> rw [hp] at h4
              · left
                refine ⟨rfl, ?_⟩
                symm
                injection h4
              · rcases hcm : cms.get? fi with _ | cm <;> rw [hcm] at h4
                · exact absurd h4 (by simp)
                · right
                  refine ⟨p, cm, rfl, rfl, ?_⟩
                  symm
                  injection h4
          | succ oj =>
              exact ih rest2 hr oj ty ot hoi

/-- Witness for C8: a concrete one-object, one-frame input with camera
movement `(12, -3)`, one positioned track (compensated to
`(100-12, 50+3) = (88, 53)`), and one position-less track. -/
theorem addAdjustPositionsToTracks_spec_witness :
    (∃ res, addAdjustPositionsToTracks cmsW tracksW = some res) ∧
    (∃ ot2,
      (Option.getD (addAdjustPositionsToTracks cmsW tracksW) []).get? 0 =
        some ("players", ot2) ∧
      ∀ fi fr, [[(1, infoPosW), (2, infoNoPosW)]].get? fi = some fr →
        ∃ fr2, ot2.get? fi = some fr2 ∧
          ∀ ti tid info, fr.get? ti = some (tid, info) →
            ∃ info2, fr2.get? ti = some (tid, info2) ∧
              ((info.position = none ∧ info2 = info) ∨
               (∃ p cm, info.position = some p ∧ cmsW.get? fi = some cm ∧
                 info2 = { info with
                   positionAdjusted := some (p.1 - cm.1, p.2 - cm.2) }))) := by
  have hrun : addAdjustPositionsToTracks cmsW tracksW =
      some [("players", [[(1, infoAdjW), (2, infoNoPosW)]])] := by
    simp only [addAdjustPositionsToTracks, adjustObject, adjustFrame, adjustInfoAt,
      cmsW, tracksW, infoPosW, infoNoPosW, infoAdjW, List.get?]
    norm_num
  constructor
  · exact ⟨_, hrun⟩
  · have h := addAdjustPositionsToTracks_spec cmsW tracksW _ hrun 0 "players"
      [[(1, infoPosW), (2, infoNoPosW)]] (by rfl)
    obtain ⟨ot2, h1, h2⟩ := h
    refine ⟨ot2, ?_, h2⟩
    rw [hrun]
    simpa [hrun] using h1

theorem maxDispGo_spec :
    ∀ (l : List ((ℚ × ℚ) × (ℚ × ℚ))) (acc : ℚ × (ℚ × ℚ)),
      acc.1 ≤ (maxDispGo l acc).1 ∧
      (∀ pr ∈ l, measureDistSq pr.1 pr.2 ≤ (maxDispGo l acc).1) ∧
      (maxDispGo l acc = acc ∨
        ∃ pr ∈ l, (maxDispGo l acc).1 = measureDistSq pr.1 pr.2 ∧
          (maxDispGo l acc).2 = (pr.2.1 - pr.1.1, pr.2.2 - pr.1.2)) := by
  intro l
  induction l with
  | nil =>
      intro acc
      refine ⟨le_refl _, ?_, Or.inl rfl⟩
      intro pr hpr
      exact absurd hpr (List.not_mem_nil pr)
  | cons hd tl ih =>
      intro acc
      obtain ⟨maxSq, v⟩ := acc
      obtain ⟨nw, od⟩ := hd
      by_cases hgt : measureDistSq nw od > maxSq
      · have hrw : maxDispGo ((nw, od) :: tl) (maxSq, v) =
            maxDispGo tl (measureDistSq nw od, (od.1 - nw.1, od.2 - nw.2)) := by
          simp [maxDispGo, hgt]
        obtain ⟨h1, h2, h3⟩ := ih (measureDistSq nw od, (od.1 - nw.1, od.2 - nw.2))
        rw [hrw]
        refine ⟨le_trans (le_of_lt hgt) h1, ?_, ?_⟩
        · intro pr hpr
          rcases List.mem_cons.mp hpr with hpr | hpr
          · rw [hpr]; exact h1
          · exact h2 pr hpr
        · rcases h3 with heq | ⟨pr, hpr, ha, hb⟩
          · refine Or.inr ⟨(nw, od), List.mem_cons_self _ _, ?_, ?_⟩
            · rw [heq]
            · rw [heq]
          · exact Or.inr ⟨pr, List.mem_cons_of_mem _ hpr, ha, hb⟩
      · have hrw : maxDispGo ((nw, od) :: tl) (maxSq, v) = maxDispGo tl (maxSq, v) := by
          simp [maxDispGo, hgt]
        obtain ⟨h1, h2, h3⟩ := ih (maxSq, v)
        rw [hrw]
        refine ⟨h1, ?_, ?_⟩
        · intro pr hpr
          rcases List.mem_cons.mp hpr with hpr | hpr
          · rw [hpr]
            exact le_trans (le_of_not_lt hgt) h1
          · exact h2 pr hpr
        · rcases h3 with heq | ⟨pr, hpr, ha, hb⟩
          · exact Or.inl heq
          · exact Or.inr ⟨pr, List.mem_cons_of_mem _ hpr, ha, hb⟩

/-- C9.  Camera-motion noise floor: in a frame step of
`get_camera_movement` with tracked feature pairs, if the maximum
(squared) displacement does not exceed the (squared) 5-pixel noise
floor, the reported motion is exactly `(0, 0)` and the feature set is
kept unchanged; otherwise the reported motion is the vector
`old - new` of a pair realizing the maximum displacement (every pair's
displacement being bounded by it) and the features are re-detected. -/
theorem camStep_noise_floor (detect : ℕ → Option Features)
    (flow : ℕ → Option Features → Option Features) (ofs : Option Features) (i : ℕ)
    (nfs olds : Features) (hnf : flow i ofs = some nfs) (hofs : ofs = some olds) :
    ((maxDisp (nfs.zip olds)).1 ≤ 5 ^ 2 →
      camStep detect flow ofs i = ((0, 0), ofs)) ∧
    ((maxDisp (nfs.zip olds)).1 > 5 ^ 2 →
      ∃ pr ∈ nfs.zip olds,
        measureDistSq pr.1 pr.2 = (maxDisp (nfs.zip olds)).1 ∧
        camStep detect flow ofs i = ((pr.2.1 - pr.1.1, pr.2.2 - pr.1.2), detect i) ∧
        ∀ qr ∈ nfs.zip olds, measureDistSq qr.1 qr.2 ≤ (maxDisp (nfs.zip olds)).1) := by
  have hstep : camStep detect flow ofs i =
      (if (maxDisp (nfs.zip olds)).1 > 5 ^ 2
        then ((maxDisp (nfs.zip olds)).2, detect i)
        else ((0, 0), ofs)) := by
    unfold camStep
    rw [hnf, hofs]
  constructor
  · intro hle
    rw [hstep, if_neg (not_lt_of_le hle)]
  · intro hgt
    obtain ⟨h1, h2, h3⟩ := maxDispGo_spec (nfs.zip olds) (0, (0, 0))
    rcases h3 with heq | ⟨pr, hpr, ha, hb⟩
    · exfalso
      have hzero : maxDisp (nfs.zip olds) = (0, (0, 0)) := heq
      rw [hzero] at hgt
      norm_num at hgt
    · refine ⟨pr, hpr, ?_, ?_, ?_⟩
      · have ha' : (maxDisp (nfs.zip olds)).1 = measureDistSq pr.1 pr.2 := ha
        exact ha'.symm
      · rw [hstep, if_pos hgt]
        have hb' : (maxDisp (nfs.zip olds)).2 = (pr.2.1 - pr.1.1, pr.2.2 - pr.1.2) := hb
        rw [hb']
      · intro qr hqr
        exact h2 qr hqr

/-- Witness for C9: a single feature displaced by `(10, 0)` exceeds the
noise floor, and the reported motion is `(-10, 0)` with features
re-detected. -/
theorem camStep_noise_floor_witness :
    flowW 1 (detectW 0) = some [(10, 0)] ∧
    detectW 0 = some [(0, 0)] ∧
    (maxDisp ([((10 : ℚ), (0 : ℚ))].zip [((0 : ℚ), (0 : ℚ))])).1 > 5 ^ 2 ∧
    ∃ pr ∈ [((10 : ℚ), (0 : ℚ))].zip [((0 : ℚ), (0 : ℚ))],
      measureDistSq pr.1 pr.2 = (maxDisp ([((10 : ℚ), (0 : ℚ))].zip [((0 : ℚ), (0 : ℚ))])).1 ∧
      camStep detectW flowW (detectW 0) 1 = ((pr.2.1 - pr.1.1, pr.2.2 - pr.1.2), detectW 1) ∧
      ∀ qr ∈ [((10 : ℚ), (0 : ℚ))].zip [((0 : ℚ), (0 : ℚ))],
        measureDistSq qr.1 qr.2 ≤ (maxDisp ([((10 : ℚ), (0 : ℚ))].zip [((0 : ℚ), (0 : ℚ))])).1 :=
  ⟨by norm_num [flowW, detectW], by norm_num [detectW],
   by norm_num [maxDisp, maxDispGo, measureDistSq],
   (camStep_noise_floor detectW flowW (detectW 0) 1 [(10, 0)] [(0, 0)]
      (by norm_num [flowW, detectW]) (by norm_num [detectW])).2
     (by norm_num [maxDisp, maxDispGo, measureDistSq])⟩

end Camera

namespace TeamAssigner

/-- C10.  Graceful color fallback: deriving the team profile from fewer
than 2 player detections sets the fixed default team colors, independent
of the clustering oracle (clustering is not consulted); and
`get_player_color` on a degenerate bbox (inverted/offscreen coordinates,
or a clamped crop whose top third is smaller than 5x5) returns the
neutral gray `(128, 128, 128)`, independent of the clustering oracle
(and in particular without raising). -/
theorem teamAssigner_color_fallbacks :
    (∀ (fh fw : ℤ) (cluster : ℤ → ℤ → ℤ → ℤ → Color)
        (kmeans2 kmeans2' : List Color → Color × Color) (dets : List Bbox),
      dets.length < 2 →
      assignTeamColor fh fw cluster kmeans2 dets = ((255, 0, 0), (0, 0, 255)) ∧
      assignTeamColor fh fw cluster kmeans2 dets =
        assignTeamColor fh fw cluster kmeans2' dets) ∧
    (∀ (fh fw : ℤ) (cluster cluster2 : ℤ → ℤ → ℤ → ℤ → Color) (bb : Bbox),
      (bboxInvalid bb ∨ cropTopHeight fh bb < 5 ∨ cropWidth fw bb < 5) →
      getPlayerColor fh fw cluster bb = grayColor ∧
      getPlayerColor fh fw cluster bb = getPlayerColor fh fw cluster2 bb) := by
  constructor
  · intro fh fw cluster kmeans2 kmeans2' dets hlen
    have hmap : (dets.map (getPlayerColor fh fw cluster)).length < 2 := by
      rw [List.length_map]
      exact hlen
    constructor
    · unfold assignTeamColor
      rw [if_pos hmap]
    · unfold assignTeamColor
      rw [if_pos hmap, if_pos hmap]
  · intro fh fw cluster cluster2 bb hdeg
    rcases hdeg with hinv | hsmall
    · constructor
      · unfold getPlayerColor
        rw [if_pos hinv]
      · unfold getPlayerColor
        rw [if_pos hinv, if_pos hinv]
    · by_cases hinv : bboxInvalid bb
      · constructor
        · unfold getPlayerColor
          rw [if_pos hinv]
        · unfold getPlayerColor
          rw [if_pos hinv, if_pos hinv]
      · constructor
        · unfold getPlayerColor
          rw [if_neg hinv, if_pos hsmall]
        · unfold getPlayerColor
          rw [if_neg hinv, if_pos hsmall, if_neg hinv, if_pos hsmall]

/-- Witness for C10: one detection (fewer than 2) yields the default
red/blue profile, and an inverted bbox yields gray, for a concrete
clustering oracle. -/
theorem teamAssigner_color_fallbacks_witness :
    (([bbC] : List Bbox).length < 2 ∧
      assignTeamColor 100 100 (fun _ _ _ _ => (7, 7, 7)) (fun _ => ((7, 7, 7), (9, 9, 9)))
        [bbC] = ((255, 0, 0), (0, 0, 255))) ∧
    (bboxInvalid ⟨10, 10, 5, 20⟩ ∧
      getPlayerColor 100 100 (fun _ _ _ _ => (7, 7, 7)) ⟨10, 10, 5, 20⟩ = grayColor) := by
  have hinv : bboxInvalid (⟨10, 10, 5, 20⟩ : Bbox) := by
    unfold bboxInvalid truncToInt
    norm_num
  refine ⟨⟨by norm_num, ?_⟩, ⟨hinv, ?_⟩⟩
  · exact (teamAssigner_color_fallbacks.1 100 100 (fun _ _ _ _ => (7, 7, 7))
      (fun _ => ((7, 7, 7), (9, 9, 9))) (fun _ => ((7, 7, 7), (9, 9, 9))) [bbC]
      (by norm_num)).1
  · exact (teamAssigner_color_fallbacks.2 100 100 (fun _ _ _ _ => (7, 7, 7))
      (fun _ _ _ _ => (7, 7, 7)) ⟨10, 10, 5, 20⟩ (Or.inl hinv)).1

end TeamAssigner

namespace AdvancedTracker

/-- C5 counterexample: with a holder in frame 0 and no player within the
threshold in frame 1, `assign_ball_possession` reports NO holder in
frame 1 (`has_ball` false for every player) even though a holder existed
previously — the per-frame holder flickers to no-holder, contradicting
the claimed persistence. -/
theorem assignBallPossession_no_holder_flicker :
    assignBallPossession [[(1, nearBbC5)], [(1, farBbC5)]] [[(1, ballBbC5)], [(1, ballBbC5)]] =
      [[(1, nearBbC5, true)], [(1, farBbC5, false)]] := by
  norm_num [assignBallPossession, assignBallPossessionFrame, findFirstHolder,
    PlayerBallAssigner.assignBallToPlayer, PlayerBallAssigner.assignGo,
    PlayerBallAssigner.playerDistSq, measureDistSq, getCenterOfBbox,
    truncToInt, nearBbC5, farBbC5, ballBbC5]

/-- C5 amended.  When no player is within the ball-distance threshold in
a frame, `assign_ball_possession` reports no holder for that frame (all
`has_ball` flags false); the previous holder persists only in the
pass-tracking aggregation of `get_analysis_stats`, whose
`last_player_with_ball` state (and every counter) is unchanged by a
holderless frame. -/
theorem possession_no_persistence_amended :
    (∀ (players balls : List (ℕ × Bbox)), findFirstHolder players balls = none →
      assignBallPossessionFrame players balls = players.map (fun p => (p.1, p.2, false))) ∧
    (∀ (st : AppStats.PassState) (frame : List AppStats.FramePlayer),
      AppStats.currentHolder frame = none → AppStats.passStep st frame = st) := by
  constructor
  · intro players balls hnone
    unfold assignBallPossessionFrame
    rw [hnone]
  · intro st frame hcur
    exact AppStats.passStep_eq_of_none st hcur

/-- Witness for the amended C5: a far player yields a holderless frame
report, and a holderless frame leaves the pass state untouched. -/
theorem possession_no_persistence_amended_witness :
    (findFirstHolder [(1, farBbC5)] [(1, ballBbC5)] = none ∧
      assignBallPossessionFrame [(1, farBbC5)] [(1, ballBbC5)] = [(1, farBbC5, false)]) ∧
    (AppStats.currentHolder [⟨3, 1, false⟩] = none ∧
      AppStats.passStep AppStats.initPassState [⟨3, 1, false⟩] = AppStats.initPassState) := by
  have h1 : findFirstHolder [(1, farBbC5)] [(1, ballBbC5)] = none := by
    norm_num [findFirstHolder, PlayerBallAssigner.assignBallToPlayer,
      PlayerBallAssigner.assignGo, PlayerBallAssigner.playerDistSq,
      measureDistSq, getCenterOfBbox, truncToInt, farBbC5, ballBbC5]
  have h2 : AppStats.currentHolder [⟨3, 1, false⟩] = none := by
    norm_num [AppStats.currentHolder]
  refine ⟨⟨h1, ?_⟩, ⟨h2, ?_⟩⟩
  · have := possession_no_persistence_amended.1 [(1, farBbC5)] [(1, ballBbC5)] h1
    simpa using this
  · exact possession_no_persistence_amended.2 AppStats.initPassState [⟨3, 1, false⟩] h2

end AdvancedTracker

namespace TeamAssigner

/-- A locked player id's team is returned as-is and the state is
untouched. -/
theorem getPlayerTeam_locked (ta : TAState) (fr : Option ℕ) (bb : Bbox) (pid t : ℕ)
    (h : lookupA pid ta.playerTeamDict = some t) :
    (getPlayerTeam ta fr bb pid).1 = t ∧ (getPlayerTeam ta fr bb pid).2 = ta := by
  unfold getPlayerTeam
  rw [h]
  exact ⟨rfl, rfl⟩

/-- No `get_player_team` call ever removes or changes an existing lock
entry. -/
theorem getPlayerTeam_dict_mono (ta : TAState) (fr : Option ℕ) (bb : Bbox) (pid2 pid t : ℕ)
    (h : lookupA pid ta.playerTeamDict = some t) :
    lookupA pid (getPlayerTeam ta fr bb pid2).2.playerTeamDict = some t := by
  unfold getPlayerTeam
  rcases h2 : lookupA pid2 ta.playerTeamDict with _ | t2
  · rcases ta.classifier with _ | cls
    · exact h
    · rcases fr with _ | f
      · exact h
      · have hne : pid ≠ pid2 := by
          intro he
          rw [he, h2] at h
          cases h
        simp only []
        rw [lookupA_setA_ne _ _ _ _ hne]
        exact h
  · exact h

/-- Once locked, a player's team survives any sequence of further
`get_player_team` calls. -/
theorem runCalls_locked (pid t : ℕ) :
    ∀ (calls : List (Option ℕ × Bbox × ℕ)) (ta : TAState),
      lookupA pid ta.playerTeamDict = some t →
      lookupA pid (runCalls ta calls).playerTeamDict = some t := by
  intro calls
  induction calls with
  | nil => intro ta h; exact h
  | cons hd tl ih =>
      obtain ⟨fr, bb, pid2⟩ := hd
      intro ta h
      rw [runCalls]
      exact ih _ (getPlayerTeam_dict_mono ta fr bb pid2 pid t h)

end TeamAssigner

namespace SmartTracker

open TeamAssigner

/-- C1 counterexample: in the run `evC1`, track id 5 appears in frame 0
with team 1 / color `(255, 255, 255)` (defaulted before team
initialization) and, after its history is evicted by
`cleanup_old_tracks`, reappears in frame 62 with team 2 / color
`(0, 200, 0)` — so the team and color attached to one id are NOT
identical across all frames in which it appears. -/
theorem smartTracker_team_not_constant :
    resC1.2.2.get? 0 = some [(5, outC1a)] ∧
    resC1.2.2.get? 2 = some [(5, outC1b)] ∧
    outC1a.team ≠ outC1b.team ∧ outC1a.teamColor ≠ outC1b.teamColor := by
  refine ⟨?_, ?_, by norm_num [outC1a, outC1b], by norm_num [outC1a, outC1b]⟩ <;>
    norm_num [resC1, runPipeline, applyEvent, processFrameDetections, processLoop,
      processDetection, validateTrackAssignment, updateTrackHistory, cleanupOldTracks,
      getPlayerTeam, lookupA, setA, takeLast, getPositionFromBbox, measureDistSq,
      initTAState, initSmartState, evC1, clsTwo, bbC, outC1a, outC1b]

/-- The fold invariant of the detection loop: if track `tid` starts with
a history entry of team `tm`, then throughout the loop its history entry
keeps team `tm` and its emitted output (if any) carries team `tm`. -/
theorem processLoop_team_inv (fr : Option ℕ) (fn : ℤ) (tid tm : ℕ) :
    ∀ (dets : List (ℕ × Bbox)) (ta : TAState) (st : SmartState) (acc : List (ℕ × SmartOut)),
      (∃ h1, lookupA tid st.history = some h1 ∧ h1.team = tm) →
      (∀ p ∈ st.history, p.1 = tid → p.2.team = tm) →
      (∀ p ∈ acc, p.1 = tid → p.2.team = tm) →
      (∃ h1, lookupA tid (processLoop fr fn (ta, st, acc) dets).2.1.history = some h1 ∧
        h1.team = tm) ∧
      (∀ p ∈ (processLoop fr fn (ta, st, acc) dets).2.1.history, p.1 = tid → p.2.team = tm) ∧
      (∀ p ∈ (processLoop fr fn (ta, st, acc) dets).2.2, p.1 = tid → p.2.team = tm) := by
  intro dets
  induction dets with
  | nil =>
      intro ta st acc hI1 hI2 hI3
      exact ⟨hI1, hI2, hI3⟩
  | cons hd tl ih =>
      obtain ⟨tid2, bb⟩ := hd
      intro ta st acc hI1 hI2 hI3
      rw [processLoop]
      by_cases hv : validateTrackAssignment st tid2 bb (getPlayerTeam ta fr bb tid2).1 = true
      · rcases hl2 : lookupA tid2 st.history with _ | h2
        · have heq : tid2 ≠ tid := by
            intro he
            obtain ⟨h1, hl1, _⟩ := hI1
            rw [he, hl1] at hl2
            cases hl2
          have hpd : processDetection ta st fr fn acc tid2 bb =
              ((getPlayerTeam ta fr bb tid2).2,
               ⟨setA tid2 ⟨(getPlayerTeam ta fr bb tid2).1, (lookupA (getPlayerTeam ta fr bb tid2).1 st.teamColors).getD (128, 128, 128), [getPositionFromBbox bb], fn⟩ st.history, st.teamColors⟩,
               setA tid2 ⟨bb, (getPlayerTeam ta fr bb tid2).1, (lookupA (getPlayerTeam ta fr bb tid2).1 st.teamColors).getD (128, 128, 128)⟩ acc) := by
            unfold processDetection updateTrackHistory
            rw [if_pos hv, hl2]
          rw [hpd]
          apply ih
          · obtain ⟨h1, hl1, ht1⟩ := hI1
            refine ⟨h1, ?_, ht1⟩
            rw [lookupA_setA_ne _ _ _ _ (fun he => heq he.symm)]
            exact hl1
          · intro p hp hpk
            rcases mem_setA hp with ⟨hk, _⟩ | hmem
            · exact absurd (hk.symm.trans hpk) heq
            · exact hI2 p hmem hpk
          · intro p hp hpk
            rcases mem_setA hp with ⟨hk, _⟩ | hmem
            · exact absurd (hk.symm.trans hpk) heq
            · exact hI3 p hmem hpk
        · have hteam2 : h2.team = tm ∨ tid2 ≠ tid := by
            by_cases he : tid2 = tid
            · subst he
              exact Or.inl (hI2 (tid2, h2) (lookupA_mem hl2) rfl)
            · exact Or.inr he
          have hpd : processDetection ta st fr fn acc tid2 bb =
              ((getPlayerTeam ta fr bb tid2).2,
               ⟨setA tid2 ⟨h2.team, h2.teamColor, takeLast 10 (h2.positions ++ [getPositionFromBbox bb]), fn⟩ st.history, st.teamColors⟩,
               setA tid2 ⟨bb, h2.team, h2.teamColor⟩ acc) := by
            unfold processDetection updateTrackHistory
            rw [if_pos hv, hl2]
          rw [hpd]
          apply ih
          · obtain ⟨h1, hl1, ht1⟩ := hI1
            by_cases he : tid2 = tid
            · subst he
              rcases hteam2 with ht2 | hne
              · exact ⟨_, lookupA_setA_self _ _ _, ht2⟩
              · exact absurd rfl hne
            · refine ⟨h1, ?_, ht1⟩
              rw [lookupA_setA_ne _ _ _ _ (fun hx => he hx.symm)]
              exact hl1
          · intro p hp hpk
            rcases mem_setA hp with ⟨hk, hval⟩ | hmem
            · rcases hteam2 with ht2 | hne
              · rw [hval]
                exact ht2
              · exact absurd (hk.symm.trans hpk) hne
            · exact hI2 p hmem hpk
          · intro p hp hpk
            rcases mem_setA hp with ⟨hk, hval⟩ | hmem
            · rcases hteam2 with ht2 | hne
              · rw [hval]
                exact ht2
              · exact absurd (hk.symm.trans hpk) hne
            · exact hI3 p hmem hpk
      · have hpd : processDetection ta st fr fn acc tid2 bb =
            ((getPlayerTeam ta fr bb tid2).2, st, acc) := by
          unfold processDetection
          rw [if_neg hv]
        rw [hpd]
        exact ih _ st acc hI1 hI2 hI3

/-- C1 amended.  (i) `get_player_team` is stable: once a player id is in
`player_team_dict`, the lock survives any sequence of further calls and
every later call for that id returns the locked team.  (ii) Within one
`process_frame_detections` step, a track currently in the SmartTracker
history is emitted (if accepted) with its historical team, and its
surviving history entry keeps that team — the team attached to an id can
change across frames only if `cleanup_old_tracks` removed the id's
history in between (as the counterexample shows it then can). -/
theorem team_lock_amended :
    (∀ (ta : TAState) (pid t : ℕ),
      lookupA pid ta.playerTeamDict = some t →
      ∀ (calls : List (Option ℕ × Bbox × ℕ)) (fr : Option ℕ) (bb : Bbox),
        lookupA pid (runCalls ta calls).playerTeamDict = some t ∧
        (getPlayerTeam (runCalls ta calls) fr bb pid).1 = t) ∧
    (∀ (ta : TAState) (st : SmartState) (fr : Option ℕ) (fn : ℤ)
        (dets : List (ℕ × Bbox)) (tid : ℕ) (h1 : HistEntry),
      (st.history.map Prod.fst).Nodup →
      lookupA tid st.history = some h1 →
      (∀ out, lookupA tid (processFrameDetections ta st dets fn fr).2.2 = some out →
        out.team = h1.team) ∧
      (∀ h2, lookupA tid (processFrameDetections ta st dets fn fr).2.1.history = some h2 →
        h2.team = h1.team)) := by
  constructor
  · intro ta pid t h calls fr bb
    have hrc := runCalls_locked pid t calls ta h
    exact ⟨hrc, (getPlayerTeam_locked _ fr bb pid t hrc).1⟩
  · intro ta st fr fn dets tid h1 hnodup hl
    obtain ⟨hI1, hI2, hI3⟩ := processLoop_team_inv fr fn tid h1.team dets ta st []
      ⟨h1, hl, rfl⟩
      (by
        intro p hp hpk
        have hpv : p.2 = h1 := by
          have hmem : (tid, p.2) ∈ st.history := by
            rw [← hpk]
            exact hp
          exact lookupA_eq_of_nodup hnodup hl hmem
        rw [hpv])
      (by intro p hp; exact absurd hp (List.not_mem_nil p))
    constructor
    · intro out hout
      unfold processFrameDetections at hout
      exact hI3 _ (lookupA_mem hout) rfl
    · intro h2 hh2
      unfold processFrameDetections at hh2
      simp only [] at hh2
      unfold cleanupOldTracks at hh2
      have hmem := lookupA_mem hh2
      simp only [List.mem_filter] at hmem
      exact hI2 _ hmem.1 rfl

/-- Witness for the amended C1: player 7's lock survives a later call,
and a frame step emits track 5 with its historical team 1. -/
theorem team_lock_amended_witness :
    (lookupA 7 taC1W.playerTeamDict = some 2 ∧
      lookupA 7 (runCalls taC1W callsC1W).playerTeamDict = some 2 ∧
      (getPlayerTeam (runCalls taC1W callsC1W) none bbC 7).1 = 2) ∧
    ((smC1W.history.map Prod.fst).Nodup ∧
      lookupA 5 smC1W.history = some histC1W ∧
      ∀ out, lookupA 5 (processFrameDetections initTAState smC1W [(5, bbC)] 1 none).2.2 =
        some out → out.team = histC1W.team) := by
  have h1 : lookupA 7 taC1W.playerTeamDict = some 2 := rfl
  have h2 : (smC1W.history.map Prod.fst).Nodup := by
    simp [smC1W]
  have h3 : lookupA 5 smC1W.history = some histC1W := rfl
  obtain ⟨ha, hb⟩ := team_lock_amended
  obtain ⟨hc, hd⟩ := ha taC1W 7 2 h1 callsC1W none bbC
  obtain ⟨he, -⟩ := hb initTAState smC1W none 1 [(5, bbC)] 5 histC1W h2 h3
  exact ⟨⟨h1, hc, hd⟩, ⟨h2, h3, he⟩⟩


end SmartTracker

namespace IDStabilizer

open TeamAssigner

/-- Fold invariant of the registry scan: any recorded best candidate is
eligible, so the final best is. -/
theorem findMissingGo_good (st : StabState) (pos : ℚ × ℚ) (frameNum : ℤ) :
    ∀ (l : List (ℕ × RegInfo)) (best : Option (ℕ × ℚ)),
      (∀ s d, best = some (s, d) → GoodCand st pos frameNum s d) →
      ∀ s d, findMissingGo st pos frameNum l best = some (s, d) →
        GoodCand st pos frameNum s d := by
  intro l
  induction l with
  | nil =>
      intro best hbest s d h
      exact hbest s d h
  | cons hd tl ih =>
      obtain ⟨sid, info⟩ := hd
      intro best hbest s d h
      rcases hls : lookupA sid st.lastSeen with _ | ls
      · rw [findMissingGo, hls] at h
        exact ih best hbest s d h
      · rw [findMissingGo, hls] at h
        simp only [] at h
        by_cases hgap : frameNum - ls ≤ 10 ∧ frameNum - ls > 0
        · rw [if_pos hgap] at h
          rcases hph : lookupA sid st.posHistory with _ | hist
          · rw [hph] at h
            exact ih best hbest s d h
          · rw [hph] at h
            simp only [] at h
            rcases hlast : hist.getLast? with _ | le
            · rw [hlast] at h
              exact ih best hbest s d h
            · rw [hlast] at h
              simp only [] at h
              rcases best with _ | b
              · simp only [] at h
                by_cases hd80 : measureDistSq pos (le.2.1, le.2.2) < 80 ^ 2
                · rw [if_pos hd80] at h
                  refine ih _ ?_ s d h
                  intro s' d' he
                  obtain ⟨h1, h2⟩ : sid = s' ∧ measureDistSq pos (le.2.1, le.2.2) = d' := by
                    have := he
                    simp only [Option.some.injEq, Prod.mk.injEq] at this
                    exact this
                  subst h1
                  subst h2
                  exact ⟨ls, hls, hgap.1, hgap.2, hist, le, hph, hlast, rfl, hd80⟩
                · rw [if_neg hd80] at h
                  exact ih none hbest s d h
              · simp only [] at h
                by_cases hd80 : measureDistSq pos (le.2.1, le.2.2) < 80 ^ 2 ∧
                    measureDistSq pos (le.2.1, le.2.2) < b.2
                · rw [if_pos hd80] at h
                  refine ih _ ?_ s d h
                  intro s' d' he
                  obtain ⟨h1, h2⟩ : sid = s' ∧ measureDistSq pos (le.2.1, le.2.2) = d' := by
                    have := he
                    simp only [Option.some.injEq, Prod.mk.injEq] at this
                    exact this
                  subst h1
                  subst h2
                  exact ⟨ls, hls, hgap.1, hgap.2, hist, le, hph, hlast, rfl, hd80.1⟩
                · rw [if_neg hd80] at h
                  exact ih (some b) hbest s d h
        · rw [if_neg hgap] at h
          exact ih best hbest s d h

/-- C3.  Reconnection distance bound: whenever
`find_missing_player_by_position` selects a stable id for reconnection,
that id's last-seen gap is positive and at most the missing-frame
budget 10, and the squared distance from the query position (the new
detection's center in `stabilize_frame_tracks`) to the id's last
recorded position is strictly below `80²` (the source compares the
square root against 80, which is equivalent). -/
theorem findMissing_reconnect_bounds (st : StabState) (pos : ℚ × ℚ) (frameNum : ℤ)
    (sid : ℕ) (h : findMissingPlayerByPosition st pos frameNum = some sid) :
    ∃ ls, lookupA sid st.lastSeen = some ls ∧
      0 < frameNum - ls ∧ frameNum - ls ≤ 10 ∧
      ∃ hist lastEntry, lookupA sid st.posHistory = some hist ∧
        hist.getLast? = some lastEntry ∧
        measureDistSq pos (lastEntry.2.1, lastEntry.2.2) < 80 ^ 2 := by
  unfold findMissingPlayerByPosition at h
  rcases hgo : findMissingGo st pos frameNum st.registry none with _ | b
  · rw [hgo] at h
    exact absurd h (by simp)
  · rw [hgo] at h
    obtain rfl : b.1 = sid := by simpa using h
    obtain ⟨ls, h1, h2, h3, hist, le, h4, h5, heq, h7⟩ :=
      findMissingGo_good st pos frameNum st.registry none (by intro s d hsd; cases hsd)
        b.1 b.2 (by rw [hgo])
    rw [heq] at h7
    exact ⟨ls, h1, h3, h2, hist, le, h4, h5, h7⟩

/-- Witness for C3: the stabilizer state `stC3` reconnects a detection at
`(100, 100)` in frame 3 to stable id 1 (gap 2, distance 0). -/
theorem findMissing_reconnect_bounds_witness :
    findMissingPlayerByPosition stC3 (100, 100) 3 = some 1 ∧
    ∃ ls, lookupA 1 stC3.lastSeen = some ls ∧
      0 < 3 - ls ∧ 3 - ls ≤ 10 ∧
      ∃ hist lastEntry, lookupA 1 stC3.posHistory = some hist ∧
        hist.getLast? = some lastEntry ∧
        measureDistSq (100, 100) (lastEntry.2.1, lastEntry.2.2) < 80 ^ 2 := by
  have h : findMissingPlayerByPosition stC3 (100, 100) 3 = some 1 := by
    norm_num [findMissingPlayerByPosition, findMissingGo, stC3, lookupA, measureDistSq]
  exact ⟨h, findMissing_reconnect_bounds stC3 (100, 100) 3 1 h⟩

/-- C4 counterexample: `IDStabilizer.find_missing_player_by_position`
ignores team entirely.  In the concrete run `runC4`, stable id 1 is
minted with locked team 2 (frame 1), and the new ByteTrack id 11 of
frame 3 — whose classified team would be 1 (the assigner defaults a
would-be mint of stable id 2 to team 1) — is nevertheless reconnected to
it: a candidate with a differing locked team IS chosen as reconnection
target, so no new id is minted. -/
theorem stabilize_reconnects_mismatched_team :
    resC4.map (fun r => lookupA 11 r.2.1.btToStable) = some (some 1) ∧
    resC4.map (fun r => (lookupA 1 r.2.1.registry).map RegInfo.team) = some (some 2) ∧
    (TeamAssigner.getPlayerTeam taC4 none bbC 2).1 = 1 ∧ (2 : ℕ) ≠ 1 := by
  refine ⟨?_, ?_, ?_, by norm_num⟩
  · norm_num [resC4, runC4, taC4, bbC, stabRun, stabilizeFrameTracks, stabilizeGo,
      processTrack, finishTrack, mintTeam, findMissingPlayerByPosition, findMissingGo,
      cleanupOldPlayers, initStabState, lookupA, setA, takeLast, getPositionFromBbox,
      measureDistSq, TeamAssigner.getPlayerTeam]
  · norm_num [resC4, runC4, taC4, bbC, stabRun, stabilizeFrameTracks, stabilizeGo,
      processTrack, finishTrack, mintTeam, findMissingPlayerByPosition, findMissingGo,
      cleanupOldPlayers, initStabState, lookupA, setA, takeLast, getPositionFromBbox,
      measureDistSq, TeamAssigner.getPlayerTeam]
  · norm_num [TeamAssigner.getPlayerTeam, taC4, lookupA]


/-- Membership in the alias accumulation fold of `cleanup_old_players`. -/
theorem mem_foldl_append (x : ℕ) :
    ∀ (l : List (ℕ × RegInfo)) (acc : List ℕ),
      x ∈ l.foldl (fun a e => a ++ e.2.bytetrackIds) acc ↔
        x ∈ acc ∨ ∃ e ∈ l, x ∈ e.2.bytetrackIds := by
  intro l
  induction l with
  | nil =>
      intro acc
      simp [List.foldl]
  | cons hd tl ih =>
      intro acc
      rw [List.foldl_cons, ih]
      constructor
      · rintro (hx | hx)
        · rcases List.mem_append.mp hx with hx | hx
          · exact Or.inl hx
          · exact Or.inr ⟨hd, List.mem_cons_self _ _, hx⟩
        · obtain ⟨e, he, hxe⟩ := hx
          exact Or.inr ⟨e, List.mem_cons_of_mem _ he, hxe⟩
      · rintro (hx | hx)
        · exact Or.inl (List.mem_append.mpr (Or.inl hx))
        · obtain ⟨e, he, hxe⟩ := hx
          rcases List.mem_cons.mp he with he | he
          · exact Or.inl (List.mem_append.mpr (Or.inr (he ▸ hxe)))
          · exact Or.inr ⟨e, he, hxe⟩

/-- A fresh `IDStabilizer` is well-formed. -/
theorem WF_init : WF initStabState := by
  refine ⟨?_, ?_, ?_, ?_, ?_⟩ <;> simp [initStabState]

/-- What `finishTrack` does: it requires the id to be registered, leaves
the registry, mappings and counter alone, stamps `last_seen` with the
current frame, and emits the registered team and color. -/
theorem finishTrack_spec {st : StabState} {out : List (ℕ × StableTrack)} {fn : ℤ}
    {bb : Bbox} {sid : ℕ} {st2 : StabState} {out2 : List (ℕ × StableTrack)}
    (h : finishTrack st out fn bb sid = some (st2, out2)) :
    ∃ info, lookupA sid st.registry = some info ∧
      st2.registry = st.registry ∧ st2.btToStable = st.btToStable ∧
      st2.nextStableId = st.nextStableId ∧
      st2.lastSeen = setA sid fn st.lastSeen ∧
      out2 = setA sid ⟨bb, info.team, info.teamColor⟩ out := by
  unfold finishTrack at h
  simp only [] at h
  rcases hreg : lookupA sid st.registry with _ | info
  · rw [hreg] at h
    exact absurd h (by simp)
  · rw [hreg] at h
    simp only [Option.some.injEq, Prod.mk.injEq] at h
    obtain ⟨rfl, rfl⟩ := h
    exact ⟨info, rfl, rfl, rfl, rfl, rfl, rfl⟩

/-- The fields of the mint-branch state. -/
theorem mintState_fields (ta : Option TAState) (st : StabState) (bt : ℕ) (bb : Bbox) :
    ∃ info : RegInfo, info.bytetrackIds = [bt] ∧
      (mintState ta st bt bb).1.registry = setA st.nextStableId info st.registry ∧
      (mintState ta st bt bb).1.btToStable = setA bt st.nextStableId st.btToStable ∧
      (mintState ta st bt bb).1.nextStableId = st.nextStableId + 1 ∧
      (mintState ta st bt bb).1.lastSeen = st.lastSeen :=
  ⟨_, rfl, rfl, rfl, rfl, rfl⟩

/-- A reconnection target was seen before, strictly earlier than the
current frame. -/
theorem findMissing_lastSeen_ne {st : StabState} {pos : ℚ × ℚ} {fn : ℤ} {sid : ℕ}
    (h : findMissingPlayerByPosition st pos fn = some sid) :
    ∃ ls, lookupA sid st.lastSeen = some ls ∧ ls ≠ fn := by
  unfold findMissingPlayerByPosition at h
  rcases hgo : findMissingGo st pos fn st.registry none with _ | b
  · rw [hgo] at h
    exact absurd h (by simp)
  · rw [hgo] at h
    obtain rfl : b.1 = sid := by simpa using h
    obtain ⟨ls, h1, _, h3, -⟩ :=
      findMissingGo_good st pos fn st.registry none (by intro s d hsd; cases hsd)
        b.1 b.2 (by rw [hgo])
    exact ⟨ls, h1, by omega⟩

/-- An unregistered id below the counter stays unregistered: keys of the
registry are below the counter, so the fresh id is never an old one. -/
theorem lookupA_next_registry_none {st : StabState} (hwf : WF st) :
    lookupA st.nextStableId st.registry = none := by
  rcases hN : lookupA st.nextStableId st.registry with _ | i
  · rfl
  · have := hwf.2.2.1 _ (lookupA_mem hN)
    omega

/-- One track step of `stabilize_frame_tracks` preserves well-formedness
and the facts needed for id uniqueness and non-reuse. -/
theorem processTrack_facts {ta : Option TAState} {st : StabState}
    {out : List (ℕ × StableTrack)} {fn : ℤ} {bt : ℕ} {bb : Bbox}
    {ta2 : Option TAState} {st2 : StabState} {out2 : List (ℕ × StableTrack)}
    (hwf : WF st)
    (h : processTrack ta st out fn bt bb = some (ta2, st2, out2)) :
    WF st2 ∧
    st.nextStableId ≤ st2.nextStableId ∧
    (∀ e, e < st.nextStableId → lookupA e st.registry = none →
      lookupA e st2.registry = none ∧ (lookupA e out = none → lookupA e out2 = none)) ∧
    (∀ b s, lookupA b st.btToStable = some s → lookupA b st2.btToStable = some s) ∧
    (∀ s, lookupA s st.lastSeen = some fn → lookupA s st2.lastSeen = some fn) ∧
    (lookupA bt st.btToStable = none →
      ∃ s, lookupA bt st2.btToStable = some s ∧ lookupA s st2.lastSeen = some fn ∧
        (s = st.nextStableId ∨ ∃ ls, lookupA s st.lastSeen = some ls ∧ ls ≠ fn)) ∧
    (∀ b, b ≠ bt → lookupA b st.btToStable = none → lookupA b st2.btToStable = none) ∧
    ((out.map Prod.fst).Nodup → (out2.map Prod.fst).Nodup) := by
  obtain ⟨hw1, hw2, hw3, hw4, hw5⟩ := hwf
  unfold processTrack at h
  rcases hmap : lookupA bt st.btToStable with _ | sid0 <;> rw [hmap] at h <;>
    try simp only [] at h
  · -- new ByteTrack id
    rcases hfm : findMissingPlayerByPosition st (getPositionFromBbox bb) fn with _ | sid <;>
      rw [hfm] at h <;> try simp only [] at h
    · -- mint
      rcases hfin : finishTrack (mintState ta st bt bb).1 out fn bb st.nextStableId
          with _ | pair <;> rw [hfin] at h <;> try simp only [] at h
      · exact absurd h (by simp)
      · obtain ⟨st3, out3⟩ := pair
        simp only [Option.some.injEq, Prod.mk.injEq] at h
        obtain ⟨rfl, rfl, rfl⟩ := h
        obtain ⟨infoM, hbts, hR, hB, hN, hL⟩ := mintState_fields ta st bt bb
        obtain ⟨infoF, hlookF, h2R, h2B, h2N, h2L, h2O⟩ := finishTrack_spec hfin
        rw [hR] at h2R
        rw [hB] at h2B
        rw [hN] at h2N
        rw [hL] at h2L
        have hregN : lookupA st.nextStableId st.registry = none :=
          lookupA_next_registry_none ⟨hw1, hw2, hw3, hw4, hw5⟩
        refine ⟨?_, ?_, ?_, ?_, ?_, ?_, ?_, ?_⟩
        · refine ⟨?_, ?_, ?_, ?_, ?_⟩
          · intro p hp
            rw [h2B] at hp
            rw [h2R]
            rcases mem_setA hp with ⟨hk1, hk2⟩ | hp2
            · refine ⟨infoM, ?_, ?_⟩
              · rw [hk2, lookupA_setA_self]
              · rw [hbts, hk1]
                exact List.mem_singleton.mpr rfl
            · obtain ⟨info0, hi0, hb0⟩ := hw1 p hp2
              have hne : p.2 ≠ st.nextStableId := by
                intro he
                rw [he, hregN] at hi0
                cases hi0
              rw [lookupA_setA_ne _ _ _ _ hne]
              exact ⟨info0, hi0, hb0⟩
          · intro e he b hb
            rw [h2R] at he
            rw [h2B]
            rcases mem_setA he with ⟨hk1, hk2⟩ | he2
            · rw [hk2, hbts] at hb
              obtain rfl : b = bt := List.mem_singleton.mp hb
              rw [hk1, lookupA_setA_self]
            · have hmb := hw2 e he2 b hb
              have hne : b ≠ bt := by
                intro hbe
                rw [hbe, hmap] at hmb
                cases hmb
              rw [lookupA_setA_ne _ _ _ _ hne, hmb]
          · intro e he
            rw [h2R] at he
            rw [h2N]
            rcases mem_setA he with ⟨hk1, _⟩ | he2
            · omega
            · have := hw3 e he2
              omega
          · rw [h2R]
            exact nodup_keys_setA _ _ hw4
          · rw [h2B]
            exact nodup_keys_setA _ _ hw5
        · rw [h2N]
          omega
        · intro e helt hereg
          constructor
          · rw [h2R]
            have hne : e ≠ st.nextStableId := by omega
            rw [lookupA_setA_ne _ _ _ _ hne]
            exact hereg
          · intro hout
            rw [h2O]
            have hne : e ≠ st.nextStableId := by omega
            rw [lookupA_setA_ne _ _ _ _ hne]
            exact hout
        · intro b s hbs
          rw [h2B]
          have hne : b ≠ bt := by
            intro hbe
            rw [hbe, hmap] at hbs
            cases hbs
          rw [lookupA_setA_ne _ _ _ _ hne]
          exact hbs
        · intro s hs
          rw [h2L]
          by_cases hse : s = st.nextStableId
          · rw [hse, lookupA_setA_self]
          · rw [lookupA_setA_ne _ _ _ _ hse]
            exact hs
        · intro _
          refine ⟨st.nextStableId, ?_, ?_, Or.inl rfl⟩
          · rw [h2B, lookupA_setA_self]
          · rw [h2L, lookupA_setA_self]
        · intro b hbne hbnone
          rw [h2B]
          rw [lookupA_setA_ne _ _ _ _ hbne]
          exact hbnone
        · intro hnod
          rw [h2O]
          exact nodup_keys_setA _ _ hnod
    · -- reconnect
      rcases hreg : lookupA sid st.registry with _ | info <;> rw [hreg] at h <;>
        try simp only [] at h
      · exact absurd h (by simp)
      · rcases hfin : finishTrack (reconnectState st sid info bt) out fn bb sid
            with _ | pair <;> rw [hfin] at h <;> try simp only [] at h
        · exact absurd h (by simp)
        · obtain ⟨st3, out3⟩ := pair
          simp only [Option.some.injEq, Prod.mk.injEq] at h
          obtain ⟨rfl, rfl, rfl⟩ := h
          obtain ⟨infoF, hlookF, h2R, h2B, h2N, h2L, h2O⟩ := finishTrack_spec hfin
          have hRr : (reconnectState st sid info bt).registry =
              setA sid { info with bytetrackIds := info.bytetrackIds ++ [bt] } st.registry :=
            rfl
          have hBr : (reconnectState st sid info bt).btToStable =
              setA bt sid st.btToStable := rfl
          rw [hRr] at h2R
          rw [hBr] at h2B
          have h2N' : st3.nextStableId = st.nextStableId := h2N
          have h2L' : st3.lastSeen = setA sid fn st.lastSeen := h2L
          obtain ⟨lsR, hlsR, hlsRne⟩ := findMissing_lastSeen_ne hfm
          have hsidmem : (sid, info) ∈ st.registry := lookupA_mem hreg
          refine ⟨?_, ?_, ?_, ?_, ?_, ?_, ?_, ?_⟩
          · refine ⟨?_, ?_, ?_, ?_, ?_⟩
            · intro p hp
              rw [h2B] at hp
              rw [h2R]
              rcases mem_setA hp with ⟨hk1, hk2⟩ | hp2
              · refine ⟨{ info with bytetrackIds := info.bytetrackIds ++ [bt] }, ?_, ?_⟩
                · rw [hk2, lookupA_setA_self]
                · rw [hk1]
                  exact List.mem_append_right _ (List.mem_singleton.mpr rfl)
              · obtain ⟨info0, hi0, hb0⟩ := hw1 p hp2
                by_cases hpe : p.2 = sid
                · obtain rfl : info0 = info := by
                    rw [hpe] at hi0
                    rw [hreg] at hi0
                    injection hi0 with hv
                    exact hv.symm
                  rw [hpe, lookupA_setA_self]
                  exact ⟨_, rfl, List.mem_append_left _ hb0⟩
                · rw [lookupA_setA_ne _ _ _ _ hpe]
                  exact ⟨info0, hi0, hb0⟩
            · intro e he b hb
              rw [h2R] at he
              rw [h2B]
              rcases mem_setA he with ⟨hk1, hk2⟩ | he2
              · rw [hk2] at hb
                simp only [] at hb
                rcases List.mem_append.mp hb with hb1 | hb1
                · have hmb := hw2 (sid, info) hsidmem b hb1
                  have hne : b ≠ bt := by
                    intro hbe
                    rw [hbe, hmap] at hmb
                    cases hmb
                  rw [lookupA_setA_ne _ _ _ _ hne, hmb, hk1]
                · obtain rfl : b = bt := List.mem_singleton.mp hb1
                  rw [lookupA_setA_self, hk1]
              · have hmb := hw2 e he2 b hb
                have hne : b ≠ bt := by
                  intro hbe
                  rw [hbe, hmap] at hmb
                  cases hmb
                rw [lookupA_setA_ne _ _ _ _ hne]
                exact hmb
            · intro e he
              rw [h2R] at he
              rw [h2N']
              rcases mem_setA he with ⟨hk1, _⟩ | he2
              · have := hw3 (sid, info) hsidmem
                omega
              · exact hw3 e he2
            · rw [h2R]
              exact nodup_keys_setA _ _ hw4
            · rw [h2B]
              exact nodup_keys_setA _ _ hw5
          · rw [h2N']
          · intro e helt hereg
            have hne : e ≠ sid := by
              intro hee
              rw [hee, hreg] at hereg
              cases hereg
            constructor
            · rw [h2R, lookupA_setA_ne _ _ _ _ hne]
              exact hereg
            · intro hout
              rw [h2O, lookupA_setA_ne _ _ _ _ hne]
              exact hout
          · intro b s hbs
            rw [h2B]
            have hne : b ≠ bt := by
              intro hbe
              rw [hbe, hmap] at hbs
              cases hbs
            rw [lookupA_setA_ne _ _ _ _ hne]
            exact hbs
          · intro s hs
            rw [h2L']
            by_cases hse : s = sid
            · rw [hse, lookupA_setA_self]
            · rw [lookupA_setA_ne _ _ _ _ hse]
              exact hs
          · intro _
            refine ⟨sid, ?_, ?_, Or.inr ⟨lsR, hlsR, hlsRne⟩⟩
            · rw [h2B, lookupA_setA_self]
            · rw [h2L', lookupA_setA_self]
          · intro b hbne hbnone
            rw [h2B, lookupA_setA_ne _ _ _ _ hbne]
            exact hbnone
          · intro hnod
            rw [h2O]
            exact nodup_keys_setA _ _ hnod
  · -- known ByteTrack id
    rcases hfin : finishTrack st out fn bb sid0 with _ | pair <;> rw [hfin] at h <;>
      try simp only [] at h
    · exact absurd h (by simp)
    · obtain ⟨st3, out3⟩ := pair
      simp only [Option.some.injEq, Prod.mk.injEq] at h
      obtain ⟨rfl, rfl, rfl⟩ := h
      obtain ⟨infoF, hlookF, h2R, h2B, h2N, h2L, h2O⟩ := finishTrack_spec hfin
      refine ⟨?_, ?_, ?_, ?_, ?_, ?_, ?_, ?_⟩
      · refine ⟨?_, ?_, ?_, ?_, ?_⟩
        · intro p hp
          rw [h2B] at hp
          rw [h2R]
          exact hw1 p hp
        · intro e he b hb
          rw [h2R] at he
          rw [h2B]
          exact hw2 e he b hb
        · intro e he
          rw [h2R] at he
          rw [h2N]
          exact hw3 e he
        · rw [h2R]
          exact hw4
        · rw [h2B]
          exact hw5
      · rw [h2N]
      · intro e helt hereg
        have hne : e ≠ sid0 := by
          intro hee
          rw [hee, hlookF] at hereg
          cases hereg
        refine ⟨by rw [h2R]; exact hereg, ?_⟩
        intro hout
        rw [h2O, lookupA_setA_ne _ _ _ _ hne]
        exact hout
      · intro b s hbs
        rw [h2B]
        exact hbs
      · intro s hs
        rw [h2L]
        by_cases hse : s = sid0
        · rw [hse, lookupA_setA_self]
        · rw [lookupA_setA_ne _ _ _ _ hse]
          exact hs
      · intro hbt
        exact Option.noConfusion hbt
      · intro b _ hbnone
        rw [h2B]
        exact hbnone
      · intro hnod
        rw [h2O]
        exact nodup_keys_setA _ _ hnod


/-- The track loop of `stabilize_frame_tracks` preserves well-formedness
and establishes: the counter is monotone; an unregistered id below the
counter stays unregistered and never enters the output; mappings and
current-frame `last_seen` stamps persist; every previously-unmapped
ByteTrack id of the frame gets mapped to a stable id stamped with the
current frame; a newly-mapped id never collides with an id already
mapped and stamped this frame; two distinct previously-unmapped
ByteTrack ids of the frame get distinct stable ids; and output keys stay
duplicate-free. -/
theorem stabilizeGo_facts (fn : ℤ) :
    ∀ (raw : List (ℕ × Bbox)) (ta : Option TAState) (st : StabState)
      (out : List (ℕ × StableTrack)) (ta2 : Option TAState) (st2 : StabState)
      (out2 : List (ℕ × StableTrack)),
      WF st →
      stabilizeGo fn ta st out raw = some (ta2, st2, out2) →
      WF st2 ∧
      st.nextStableId ≤ st2.nextStableId ∧
      (∀ e, e < st.nextStableId → lookupA e st.registry = none → lookupA e out = none →
        lookupA e st2.registry = none ∧ lookupA e out2 = none) ∧
      (∀ b s, lookupA b st.btToStable = some s → lookupA b st2.btToStable = some s) ∧
      (∀ s, lookupA s st.lastSeen = some fn → lookupA s st2.lastSeen = some fn) ∧
      (∀ b, b ∈ raw.map Prod.fst → lookupA b st.btToStable = none →
        ∃ s, lookupA b st2.btToStable = some s ∧ lookupA s st2.lastSeen = some fn) ∧
      (∀ b1 s1, lookupA b1 st.btToStable = some s1 → lookupA s1 st.lastSeen = some fn →
        ∀ b2 s2, b2 ∈ raw.map Prod.fst → lookupA b2 st.btToStable = none →
          lookupA b2 st2.btToStable = some s2 → s2 ≠ s1) ∧
      (∀ b1 b2, b1 ∈ raw.map Prod.fst → b2 ∈ raw.map Prod.fst → b1 ≠ b2 →
        lookupA b1 st.btToStable = none → lookupA b2 st.btToStable = none →
        ∃ s1 s2, lookupA b1 st2.btToStable = some s1 ∧
          lookupA b2 st2.btToStable = some s2 ∧ s1 ≠ s2) ∧
      ((out.map Prod.fst).Nodup → (out2.map Prod.fst).Nodup) := by
  intro raw
  induction raw with
  | nil =>
      intro ta st out ta2 st2 out2 hwf h
      rw [stabilizeGo] at h
      simp only [Option.some.injEq, Prod.mk.injEq] at h
      obtain ⟨rfl, rfl, rfl⟩ := h
      refine ⟨hwf, le_refl _, ?_, ?_, ?_, ?_, ?_, ?_, ?_⟩
      · intro e _ h1 h2
        exact ⟨h1, h2⟩
      · intro b s h1
        exact h1
      · intro s h1
        exact h1
      · intro b hb
        exact absurd hb (by simp)
      · intro b1 s1 _ _ b2 s2 hb2
        exact absurd hb2 (by simp)
      · intro b1 b2 hb1
        exact absurd hb1 (by simp)
      · intro h1
        exact h1
  | cons hd rest ih =>
      obtain ⟨bt, bb⟩ := hd
      intro ta st out ta2 st2 out2 hwf h
      rw [stabilizeGo] at h
      rcases hpt : processTrack ta st out fn bt bb with _ | trip <;> rw [hpt] at h <;>
        try simp only [] at h
      · exact absurd h (by simp)
      · obtain ⟨taP, stP, outP⟩ := trip
        obtain ⟨pwf, pnext, ptrans, pmono, plseen, pnew, pother, pnod⟩ :=
          processTrack_facts hwf hpt
        obtain ⟨iwf, inext, itrans, imono, ilseen, inew, idist, ipair, inod⟩ :=
          ih taP stP outP ta2 st2 out2 pwf h
        have hkeys : ((bt, bb) :: rest).map Prod.fst = bt :: rest.map Prod.fst := rfl
        refine ⟨iwf, le_trans pnext inext, ?_, ?_, ?_, ?_, ?_, ?_, ?_⟩
        · intro e helt hereg hout
          obtain ⟨h1, h2⟩ := ptrans e helt hereg
          exact itrans e (lt_of_lt_of_le helt pnext) h1 (h2 hout)
        · intro b s h1
          exact imono b s (pmono b s h1)
        · intro s h1
          exact ilseen s (plseen s h1)
        · intro b hb hbnone
          rw [hkeys] at hb
          by_cases hbbt : b = bt
          · subst hbbt
            obtain ⟨s, hs1, hs2, _⟩ := pnew hbnone
            exact ⟨s, imono b s hs1, ilseen s hs2⟩
          · rcases List.mem_cons.mp hb with hb1 | hb1
            · exact absurd hb1 hbbt
            · exact inew b hb1 (pother b hbbt hbnone)
        · intro b1 s1 hmap1 hls1 b2 s2 hb2 hb2none hmap2
          rw [hkeys] at hb2
          have hmap1P := pmono b1 s1 hmap1
          have hls1P := plseen s1 hls1
          by_cases hb2bt : b2 = bt
          · subst hb2bt
            obtain ⟨s, hs1, _, hsor⟩ := pnew hb2none
            obtain rfl : s = s2 := by
              have := imono b2 s hs1
              rw [this] at hmap2
              injection hmap2
            rcases hsor with hsn | ⟨ls, hlss, hlsne⟩
            · intro he
              subst he
              have hb1mem := lookupA_mem hmap1
              obtain ⟨info0, hi0, _⟩ := hwf.1 _ hb1mem
              have := hwf.2.2.1 _ (lookupA_mem hi0)
              omega
            · intro he
              subst he
              rw [hls1] at hlss
              exact hlsne (by injection hlss with hv; exact hv.symm)
          · rcases List.mem_cons.mp hb2 with hb1 | hb1
            · exact absurd hb1 hb2bt
            · exact idist b1 s1 hmap1P hls1P b2 s2 hb1 (pother b2 hb2bt hb2none) hmap2
        · intro b1 b2 hb1 hb2 hne hb1none hb2none
          rw [hkeys] at hb1 hb2
          by_cases hb1bt : b1 = bt
          · subst hb1bt
            have hb2bt : b2 ≠ b1 := Ne.symm hne
            have hb2rest : b2 ∈ rest.map Prod.fst := by
              rcases List.mem_cons.mp hb2 with hx | hx
              · exact absurd hx hb2bt
              · exact hx
            obtain ⟨s, hs1, hs2, _⟩ := pnew hb1none
            have hb2noneP := pother b2 hb2bt hb2none
            obtain ⟨s2, hmap2, _⟩ := inew b2 hb2rest hb2noneP
            refine ⟨s, s2, imono b1 s hs1, hmap2, ?_⟩
            exact Ne.symm (idist b1 s hs1 hs2 b2 s2 hb2rest hb2noneP hmap2)
          · by_cases hb2bt : b2 = bt
            · subst hb2bt
              have hb1rest : b1 ∈ rest.map Prod.fst := by
                rcases List.mem_cons.mp hb1 with hx | hx
                · exact absurd hx hb1bt
                · exact hx
              obtain ⟨s, hs1, hs2, _⟩ := pnew hb2none
              have hb1noneP := pother b1 hb1bt hb1none
              obtain ⟨s1, hmap1, _⟩ := inew b1 hb1rest hb1noneP
              refine ⟨s1, s, hmap1, imono b2 s hs1, ?_⟩
              exact idist b2 s hs1 hs2 b1 s1 hb1rest hb1noneP hmap1
            · have hb1rest : b1 ∈ rest.map Prod.fst := by
                rcases List.mem_cons.mp hb1 with hx | hx
                · exact absurd hx hb1bt
                · exact hx
              have hb2rest : b2 ∈ rest.map Prod.fst := by
                rcases List.mem_cons.mp hb2 with hx | hx
                · exact absurd hx hb2bt
                · exact hx
              exact ipair b1 b2 hb1rest hb2rest hne (pother b1 hb1bt hb1none)
                (pother b2 hb2bt hb2none)
        · intro h1
          exact inod (pnod h1)


/-- `cleanup_old_players` preserves well-formedness, leaves the counter
alone, keeps absent registry ids absent, and never unmaps a ByteTrack id
whose stable id was seen this very frame. -/
theorem cleanupOldPlayers_facts {st : StabState} (fn : ℤ) (hwf : WF st) :
    WF (cleanupOldPlayers st fn) ∧
    (cleanupOldPlayers st fn).nextStableId = st.nextStableId ∧
    (∀ e, lookupA e st.registry = none → lookupA e (cleanupOldPlayers st fn).registry = none) ∧
    (∀ b s, lookupA b st.btToStable = some s → lookupA s st.lastSeen = some fn →
      lookupA b (cleanupOldPlayers st fn).btToStable = some s) := by
  obtain ⟨hw1, hw2, hw3, hw4, hw5⟩ := hwf
  simp only [cleanupOldPlayers]
  set ev := st.registry.filter (fun e =>
    match lookupA e.1 st.lastSeen with
    | some ls => decide (fn - ls > 120)
    | none => false) with hev
  have hfresh : ∀ s : ℕ, lookupA s st.lastSeen = some fn → s ∉ ev.map Prod.fst := by
    intro s hls hmem
    obtain ⟨e, he, he1⟩ := List.mem_map.mp hmem
    obtain ⟨heR, heP⟩ := List.mem_filter.mp he
    try simp only [] at heP
    rw [he1, hls] at heP
    try simp only [] at heP
    have := of_decide_eq_true heP
    omega
  have hbfresh : ∀ b s : ℕ, lookupA b st.btToStable = some s →
      lookupA s st.lastSeen = some fn →
      b ∉ ev.foldl (fun a e => a ++ e.2.bytetrackIds) [] := by
    intro b s hb hls hmem
    rcases (mem_foldl_append b ev []).mp hmem with hx | ⟨e, he, hbe⟩
    · exact absurd hx (List.not_mem_nil b)
    · obtain ⟨heR, heP⟩ := List.mem_filter.mp he
      have := hw2 e heR b hbe
      rw [hb] at this
      have he1 : e.1 = s := by injection this with hv; exact hv.symm
      try simp only [] at heP
      rw [he1, hls] at heP
      try simp only [] at heP
      have := of_decide_eq_true heP
      omega
  refine ⟨⟨?_, ?_, ?_, ?_, ?_⟩, ?_, ?_, ?_⟩
  · intro p hp
    obtain ⟨hpB, hpQ⟩ := List.mem_filter.mp hp
    have hpBts : p.1 ∉ ev.foldl (fun a e => a ++ e.2.bytetrackIds) [] :=
      of_decide_eq_true hpQ
    obtain ⟨info, hinfo, hmemI⟩ := hw1 p hpB
    have hpIds : p.2 ∉ ev.map Prod.fst := by
      intro hmem
      obtain ⟨e, he, he1⟩ := List.mem_map.mp hmem
      obtain ⟨heR, _⟩ := List.mem_filter.mp he
      obtain ⟨e1, e2⟩ := e
      try simp only [] at he1
      subst he1
      have hei := lookupA_eq_of_nodup hw4 hinfo heR
      rw [hei] at he
      exact hpBts ((mem_foldl_append p.1 ev []).mpr (Or.inr ⟨(p.2, info), he, hmemI⟩))
    exact ⟨info,
      lookupA_filter_key (fun x => decide (x ∉ ev.map Prod.fst)) p.2 info hinfo
        (decide_eq_true hpIds), hmemI⟩
  · intro e he b hb
    obtain ⟨heR, heQ⟩ := List.mem_filter.mp he
    have heIds : e.1 ∉ ev.map Prod.fst := of_decide_eq_true heQ
    have hbmap := hw2 e heR b hb
    have hbBts : b ∉ ev.foldl (fun a e => a ++ e.2.bytetrackIds) [] := by
      intro hmem
      rcases (mem_foldl_append b ev []).mp hmem with hx | ⟨e2, he2, hbe2⟩
      · exact absurd hx (List.not_mem_nil b)
      · obtain ⟨he2R, _⟩ := List.mem_filter.mp he2
        have := hw2 e2 he2R b hbe2
        rw [hbmap] at this
        have he21 : e2.1 = e.1 := by injection this with hv; exact hv.symm
        exact heIds (he21 ▸ List.mem_map.mpr ⟨e2, he2, rfl⟩)
    exact lookupA_filter_key (fun x => decide (x ∉ ev.foldl
      (fun a e => a ++ e.2.bytetrackIds) [])) b e.1 hbmap (decide_eq_true hbBts)
  · intro e he
    exact hw3 e (List.mem_filter.mp he).1
  · exact List.Nodup.sublist (List.Sublist.map Prod.fst (List.filter_sublist _)) hw4
  · exact List.Nodup.sublist (List.Sublist.map Prod.fst (List.filter_sublist _)) hw5
  · trivial
  · intro e he
    exact lookupA_filter_none _ e he
  · intro b s hb hls
    exact lookupA_filter_key (fun x => decide (x ∉ ev.foldl
      (fun a e => a ++ e.2.bytetrackIds) [])) b s hb
      (decide_eq_true (hbfresh b s hb hls))

/-- One frame of `stabilize_frame_tracks` from a well-formed state: the
result is well-formed, the counter is monotone, an unregistered id below
the counter stays unregistered and is absent from the frame output, the
frame output's stable-id keys are duplicate-free, and two distinct
previously-unmapped ByteTrack ids of the frame get distinct stable
ids. -/
theorem stabilizeFrameTracks_facts {ta : Option TAState} {st : StabState}
    {raw : List (ℕ × Bbox)} {fn : ℤ} {ta2 : Option TAState} {st2 : StabState}
    {out : List (ℕ × StableTrack)} (hwf : WF st)
    (h : stabilizeFrameTracks ta st raw fn = some (ta2, st2, out)) :
    WF st2 ∧ st.nextStableId ≤ st2.nextStableId ∧
    (∀ e, e < st.nextStableId → lookupA e st.registry = none →
      lookupA e st2.registry = none ∧ lookupA e out = none) ∧
    (out.map Prod.fst).Nodup ∧
    (∀ b1 b2, b1 ∈ raw.map Prod.fst → b2 ∈ raw.map Prod.fst → b1 ≠ b2 →
      lookupA b1 st.btToStable = none → lookupA b2 st.btToStable = none →
      ∃ s1 s2, lookupA b1 st2.btToStable = some s1 ∧
        lookupA b2 st2.btToStable = some s2 ∧ s1 ≠ s2) := by
  unfold stabilizeFrameTracks at h
  rcases hg : stabilizeGo fn ta st [] raw with _ | trip <;> rw [hg] at h <;>
    try simp only [] at h
  · exact absurd h (by simp)
  · obtain ⟨taG, stG, outG⟩ := trip
    simp only [Option.some.injEq, Prod.mk.injEq] at h
    obtain ⟨rfl, rfl, rfl⟩ := h
    obtain ⟨gwf, gnext, gtrans, _, _, gnew, _, gpair, gnod⟩ :=
      stabilizeGo_facts fn raw ta st [] taG stG outG hwf hg
    obtain ⟨cwf, cnext, ctrans, cmap⟩ := cleanupOldPlayers_facts fn gwf
    refine ⟨cwf, ?_, ?_, gnod (by simp), ?_⟩
    · rw [cnext]
      exact gnext
    · intro e he hereg
      obtain ⟨h1, h2⟩ := gtrans e he hereg rfl
      exact ⟨ctrans e h1, h2⟩
    · intro b1 b2 hb1 hb2 hne hb1none hb2none
      obtain ⟨s1, s2, hm1, hm2, hs12⟩ := gpair b1 b2 hb1 hb2 hne hb1none hb2none
      obtain ⟨s1a, hm1a, hl1a⟩ := gnew b1 hb1 hb1none
      obtain ⟨s2a, hm2a, hl2a⟩ := gnew b2 hb2 hb2none
      obtain rfl : s1a = s1 := by rw [hm1] at hm1a; injection hm1a with hv; exact hv.symm
      obtain rfl : s2a = s2 := by rw [hm2] at hm2a; injection hm2a with hv; exact hv.symm
      exact ⟨_, _, cmap _ _ hm1 hl1a, cmap _ _ hm2 hl2a, hs12⟩

/-- A run of the stabilizer from a well-formed state: well-formedness is
preserved, the counter is monotone, an unregistered id below the counter
stays unregistered and never appears in any frame output, and every
frame output has duplicate-free stable-id keys. -/
theorem stabRun_facts :
    ∀ (frames : List (ℤ × List (ℕ × Bbox))) (ta : Option TAState) (st : StabState)
      (ta2 : Option TAState) (st2 : StabState) (outs : List (List (ℕ × StableTrack))),
      WF st → stabRun ta st frames = some (ta2, st2, outs) →
      WF st2 ∧ st.nextStableId ≤ st2.nextStableId ∧
      (∀ e, e < st.nextStableId → lookupA e st.registry = none →
        lookupA e st2.registry = none ∧ ∀ o ∈ outs, lookupA e o = none) ∧
      (∀ o ∈ outs, (o.map Prod.fst).Nodup) := by
  intro frames
  induction frames with
  | nil =>
      intro ta st ta2 st2 outs hwf h
      rw [stabRun] at h
      simp only [Option.some.injEq, Prod.mk.injEq] at h
      obtain ⟨rfl, rfl, rfl⟩ := h
      refine ⟨hwf, le_refl _, ?_, ?_⟩
      · intro e _ h1
        exact ⟨h1, by intro o ho; exact absurd ho (List.not_mem_nil o)⟩
      · intro o ho
        exact absurd ho (List.not_mem_nil o)
  | cons hd rest ih =>
      obtain ⟨fn, raw⟩ := hd
      intro ta st ta2 st2 outs hwf h
      rw [stabRun] at h
      rcases hf : stabilizeFrameTracks ta st raw fn with _ | trip <;> rw [hf] at h <;>
        try simp only [] at h
      · exact absurd h (by simp)
      · obtain ⟨taF, stF, outF⟩ := trip
        rcases hr : stabRun taF stF rest with _ | trip2 <;> rw [hr] at h <;>
          try simp only [] at h
        · exact absurd h (by simp)
        · obtain ⟨taR, stR, outsR⟩ := trip2
          simp only [Option.some.injEq, Prod.mk.injEq] at h
          obtain ⟨rfl, rfl, rfl⟩ := h
          obtain ⟨fwf, fnext, ftrans, fnod, _⟩ := stabilizeFrameTracks_facts hwf hf
          obtain ⟨rwf, rnext, rtrans, rnod⟩ := ih taF stF taR stR outsR fwf hr
          refine ⟨rwf, le_trans fnext rnext, ?_, ?_⟩
          · intro e he hereg
            obtain ⟨h1, h2⟩ := ftrans e he hereg
            obtain ⟨h3, h4⟩ := rtrans e (lt_of_lt_of_le he fnext) h1
            refine ⟨h3, ?_⟩
            intro o ho
            rcases List.mem_cons.mp ho with rfl | ho2
            · exact h2
            · exact h4 o ho2
          · intro o ho
            rcases List.mem_cons.mp ho with rfl | ho2
            · exact fnod
            · exact rnod o ho2


/-- C2 counterexample: in run `framesC2bad`, frame 2 carries two
concurrent ByteTrack tracks 10 and 11; the fresh id 11, processed before
the still-active id 10, reconnects (last-seen gap 1, distance 0) to the
stable id 1 that id 10 minted in frame 1 and still holds.  Both
concurrently active ByteTrack ids end up mapped to stable id 1, and the
frame-2 output has a single entry for the two tracks — the first report
is silently overwritten. -/
theorem stabilize_concurrent_duplicate_id :
    resC2bad.map (fun r => lookupA 10 r.2.1.btToStable) = some (some 1) ∧
    resC2bad.map (fun r => lookupA 11 r.2.1.btToStable) = some (some 1) ∧
    resC2bad.map (fun r => r.2.2.map (fun o => o.map Prod.fst)) = some [[1], [1]] ∧
    (10 : ℕ) ≠ 11 := by
  refine ⟨?_, ?_, ?_, by norm_num⟩ <;>
    norm_num [resC2bad, framesC2bad, bbC, stabRun, stabilizeFrameTracks, stabilizeGo,
      processTrack, finishTrack, mintTeam, mintState, reconnectState,
      findMissingPlayerByPosition, findMissingGo, cleanupOldPlayers, initStabState,
      lookupA, setA, takeLast, getPositionFromBbox, measureDistSq]

/-- C2 (as amended): over any run of `stabilize_frame_tracks` from the
initial state, (A) two distinct ByteTrack ids of one frame that were
both previously unmapped always receive distinct stable ids — stable ids
are minted monotonically and a reconnection target refreshed this frame
is no longer eligible; and (B) ids are never reused: an id below the
counter and absent from the registry (in particular any evicted id)
never reappears in the registry nor in any later frame output.
Uniqueness across a previously-mapped id can fail (see the
counterexample): a fresh ByteTrack id processed earlier in the same
frame may reconnect to the stable id of a still-active track. -/
theorem stabilizer_fresh_unique_no_reuse :
    (∀ pre ta ta1 st1 outs1,
      stabRun ta initStabState pre = some (ta1, st1, outs1) →
      ∀ fn raw ta2 st2 out,
        stabilizeFrameTracks ta1 st1 raw fn = some (ta2, st2, out) →
        ∀ b1 b2, b1 ∈ raw.map Prod.fst → b2 ∈ raw.map Prod.fst → b1 ≠ b2 →
          lookupA b1 st1.btToStable = none → lookupA b2 st1.btToStable = none →
          ∃ s1 s2, lookupA b1 st2.btToStable = some s1 ∧
            lookupA b2 st2.btToStable = some s2 ∧ s1 ≠ s2) ∧
    (∀ pre ta ta1 st1 outs1,
      stabRun ta initStabState pre = some (ta1, st1, outs1) →
      ∀ e, e < st1.nextStableId → lookupA e st1.registry = none →
      ∀ post ta3 st3 outs3, stabRun ta1 st1 post = some (ta3, st3, outs3) →
        lookupA e st3.registry = none ∧ ∀ o ∈ outs3, lookupA e o = none) := by
  constructor
  · intro pre ta ta1 st1 outs1 hpre fn raw ta2 st2 out hf b1 b2 hb1 hb2 hne h1 h2
    have hwf1 := (stabRun_facts pre ta initStabState ta1 st1 outs1 WF_init hpre).1
    exact (stabilizeFrameTracks_facts hwf1 hf).2.2.2.2 b1 b2 hb1 hb2 hne h1 h2
  · intro pre ta ta1 st1 outs1 hpre e he hereg post ta3 st3 outs3 hpost
    have hwf1 := (stabRun_facts pre ta initStabState ta1 st1 outs1 WF_init hpre).1
    exact (stabRun_facts post ta1 st1 ta3 st3 outs3 hwf1 hpost).2.2.1 e he hereg

/-- The amended C2 theorem at concrete inputs: frame 1 with the two
fresh ByteTrack ids 10 and 11 yields distinct stable ids 1 and 2; and
after `preC2` mints stable id 1 and evicts it at frame 122, the later
run `postC2` never brings id 1 back — neither into the registry nor
into any frame output. -/
theorem stabilizer_fresh_unique_no_reuse_witness :
    (∃ s1 s2, lookupA 10 stAW.btToStable = some s1 ∧
      lookupA 11 stAW.btToStable = some s2 ∧ s1 ≠ s2) ∧
    (lookupA 1 st3C2.registry = none ∧ ∀ o ∈ outs3C2, lookupA 1 o = none) := by
  have hfr : stabilizeFrameTracks none initStabState [(10, bbC), (11, bbC)] 1 =
      some (none, stAW, outAW) := by
    norm_num [stAW, outAW, bbC, stabilizeFrameTracks, stabilizeGo,
      processTrack, finishTrack, mintTeam, mintState, reconnectState,
      findMissingPlayerByPosition, findMissingGo, cleanupOldPlayers, initStabState,
      lookupA, setA, takeLast, getPositionFromBbox, measureDistSq]
  have hpre : stabRun none initStabState preC2 = some (none, st1C2, outs1C2) := by
    norm_num [st1C2, outs1C2, preC2, bbC, stabRun, stabilizeFrameTracks, stabilizeGo,
      processTrack, finishTrack, mintTeam, mintState, reconnectState,
      findMissingPlayerByPosition, findMissingGo, cleanupOldPlayers, initStabState,
      lookupA, setA, takeLast, getPositionFromBbox, measureDistSq]
  have hpost : stabRun none st1C2 postC2 = some (none, st3C2, outs3C2) := by
    norm_num [st1C2, st3C2, outs3C2, postC2, bbC, stabRun, stabilizeFrameTracks,
      stabilizeGo, processTrack, finishTrack, mintTeam, mintState, reconnectState,
      findMissingPlayerByPosition, findMissingGo, cleanupOldPlayers, initStabState,
      lookupA, setA, takeLast, getPositionFromBbox, measureDistSq]
  refine ⟨?_, ?_⟩
  · exact stabilizer_fresh_unique_no_reuse.1 [] none none initStabState [] rfl
      1 [(10, bbC), (11, bbC)] none stAW outAW hfr 10 11 (by norm_num) (by norm_num)
      (by norm_num) rfl rfl
  · exact stabilizer_fresh_unique_no_reuse.2 preC2 none none st1C2 outs1C2 hpre
      1 (by norm_num [st1C2]) rfl postC2 none st3C2 outs3C2 hpost

end IDStabilizer

namespace PersistentIDManager

/-- Fold invariant of the persistent-manager registry scan: any recorded
best candidate is eligible (in particular, on the queried team). -/
theorem findClosestGo_good (st : PIMState) (pos : ℚ × ℚ) (team : ℕ) (frameNum : ℤ) :
    ∀ (l : List (ℕ × PRegInfo)) (best : Option (ℕ × ℚ)),
      (∀ p d, best = some (p, d) → GoodPCand st pos team frameNum p d) →
      (∀ e ∈ l, e ∈ st.playerRegistry) →
      ∀ p d, findClosestGo st pos team frameNum l best = some (p, d) →
        GoodPCand st pos team frameNum p d := by
  intro l
  induction l with
  | nil =>
      intro best hbest _ p d h
      exact hbest p d h
  | cons hd tl ih =>
      obtain ⟨pid, info⟩ := hd
      intro best hbest hsub p d h
      have hmem : (pid, info) ∈ st.playerRegistry := hsub (pid, info) (List.mem_cons_self _ _)
      have hsub' : ∀ e ∈ tl, e ∈ st.playerRegistry := fun e he =>
        hsub e (List.mem_cons_of_mem _ he)
      by_cases hteam : info.team = team ∧ frameNum - info.lastSeen ≤ 15 ∧
          frameNum - info.lastSeen > 0
      · rw [findClosestGo, if_pos hteam] at h
        rcases hph : lookupA pid st.posHistory with _ | hist
        · rw [hph] at h
          exact ih best hbest hsub' p d h
        · rw [hph] at h
          simp only [] at h
          rcases hlast : hist.getLast? with _ | le
          · rw [hlast] at h
            exact ih best hbest hsub' p d h
          · rw [hlast] at h
            simp only [] at h
            rcases best with _ | b
            · simp only [] at h
              by_cases hd100 : measureDistSq pos (le.2.1, le.2.2) < 100 ^ 2
              · rw [if_pos hd100] at h
                refine ih _ ?_ hsub' p d h
                intro p' d' he
                obtain ⟨h1, h2⟩ : pid = p' ∧ measureDistSq pos (le.2.1, le.2.2) = d' := by
                  have := he
                  simp only [Option.some.injEq, Prod.mk.injEq] at this
                  exact this
                subst h1
                subst h2
                exact ⟨info, hmem, hteam.1, hteam.2.1, hteam.2.2, hist, le, hph, hlast,
                  rfl, hd100⟩
              · rw [if_neg hd100] at h
                exact ih none hbest hsub' p d h
            · simp only [] at h
              by_cases hd100 : measureDistSq pos (le.2.1, le.2.2) < 100 ^ 2 ∧
                  measureDistSq pos (le.2.1, le.2.2) < b.2
              · rw [if_pos hd100] at h
                refine ih _ ?_ hsub' p d h
                intro p' d' he
                obtain ⟨h1, h2⟩ : pid = p' ∧ measureDistSq pos (le.2.1, le.2.2) = d' := by
                  have := he
                  simp only [Option.some.injEq, Prod.mk.injEq] at this
                  exact this
                subst h1
                subst h2
                exact ⟨info, hmem, hteam.1, hteam.2.1, hteam.2.2, hist, le, hph, hlast,
                  rfl, hd100.1⟩
              · rw [if_neg hd100] at h
                exact ih (some b) hbest hsub' p d h
      · rw [findClosestGo, if_neg hteam] at h
        exact ih best hbest hsub' p d h

/-- C4 amended.  Team-gated reconnection holds in
`PersistentIDManager.find_closest_missing_player` (likewise
`IDManager.find_closest_missing_player`): a chosen reconnection target
is always registered on the queried (classified) team, within the 15
missing-frame budget and the squared `100²` distance budget — a
candidate with a differing team is never chosen, and when no same-team
candidate qualifies the caller `process_frame_tracks` falls through to
`assign_new_id`.  (`IDStabilizer.find_missing_player_by_position`, by
contrast, ignores team: see the counterexample.) -/
theorem findClosest_team_gated (st : PIMState) (pos : ℚ × ℚ) (team : ℕ) (frameNum : ℤ)
    (pid : ℕ) (h : findClosestMissingPlayer st pos team frameNum = some pid) :
    ∃ info, (pid, info) ∈ st.playerRegistry ∧ info.team = team ∧
      0 < frameNum - info.lastSeen ∧ frameNum - info.lastSeen ≤ 15 ∧
      ∃ hist lastEntry, lookupA pid st.posHistory = some hist ∧
        hist.getLast? = some lastEntry ∧
        measureDistSq pos (lastEntry.2.1, lastEntry.2.2) < 100 ^ 2 := by
  unfold findClosestMissingPlayer at h
  rcases hgo : findClosestGo st pos team frameNum st.playerRegistry none with _ | b
  · rw [hgo] at h
    exact absurd h (by simp)
  · rw [hgo] at h
    obtain rfl : b.1 = pid := by simpa using h
    obtain ⟨info, h1, h2, h3, h4, hist, le, h5, h6, heq, h8⟩ :=
      findClosestGo_good st pos team frameNum st.playerRegistry none
        (by intro p d hpd; cases hpd) (fun e he => he) b.1 b.2 (by rw [hgo])
    rw [heq] at h8
    exact ⟨info, h1, h2, h4, h3, hist, le, h5, h6, h8⟩

/-- Witness for the amended C4: in `stC4W` the team-2 candidate 13 is
listed first and equally close, but the team-1 query selects the team-1
candidate 4. -/
theorem findClosest_team_gated_witness :
    findClosestMissingPlayer stC4W (100, 100) 1 3 = some 4 ∧
    ∃ info, ((4 : ℕ), info) ∈ stC4W.playerRegistry ∧ info.team = 1 ∧
      0 < 3 - info.lastSeen ∧ 3 - info.lastSeen ≤ 15 ∧
      ∃ hist lastEntry, lookupA 4 stC4W.posHistory = some hist ∧
        hist.getLast? = some lastEntry ∧
        measureDistSq (100, 100) (lastEntry.2.1, lastEntry.2.2) < 100 ^ 2 := by
  have h : findClosestMissingPlayer stC4W (100, 100) 1 3 = some 4 := by
    norm_num [findClosestMissingPlayer, findClosestGo, stC4W, lookupA, measureDistSq]
  exact ⟨h, findClosest_team_gated stC4W (100, 100) 1 3 4 h⟩

end PersistentIDManager

end Playbook
